import Mathlib

/-!
# Keystone security monitor bootstrap (`src/sm.c`)

A shallow embedding of the boot-time core of the security monitor:

* `nvm_free_list_init` (sm.c:65-91): the free list threaded through the
  first machine word of every block of the non-volatile region;
* `smm_init`, `nvm_init`, `osm_init` (sm.c:42-63, 95-103): the three
  region registrations;
* `sm_copy_key`, `sm_derive_sealing_key` (sm.c:112-137);
* `sm_init` (sm.c:162-235): the step function `sm_init_step` over the
  program points of one hart, interleaved over the shared globals for any
  number of harts (`Sys.step`, `run`).

Everything the translation unit takes from headers that are not part of the
source tree (sizes, bases, the `FREELIST_EMPTY` test, the status code of the
platform hooks) is a field of `Config`; every external function is a field
of `Env`.

Conventions of the model:

* `uintptr_t`, `unsigned long` and `size_t` values are natural numbers taken
  modulo `word_mod` (`256 ^ sizeof(uintptr_t)`) wherever the code computes
  them; memory is an array of bytes, a word is read and written
  little-endian;
* `free_list_nvm.count` is a C integer whose declaration is outside the
  source tree (`sm.c` prints it with `%d`): it has `count_mod` values and
  `count++` wraps to 0 past the last one;
* harts interleave statement by statement over sequentially consistent
  shared globals; `mb()` is recorded as an event and has no other effect;
* `sbi_hart_hang` does not return: a hart that calls it stays where it is.
-/

namespace SM

/-! ## Data model -/

/-- The descriptor `struct free_list` behind `free_list_nvm` (sm.c:21). Its
declaration is in a header outside the source tree; the three fields are the
ones `nvm_free_list_init` uses. `head` and `tail` hold `uintptr_t` values,
`count` a value of a C integer type with `Config.count_mod` values. -/
structure free_list where
  head : Nat
  tail : Nat
  count : Nat
deriving DecidableEq, Repr

/-- Priorities handed to `pmp_region_init_atomic` (sm.c:46, 58, 98). -/
inductive pmp_priority where
  | PMP_PRI_TOP
  | PMP_PRI_NEXT
  | PMP_PRI_BOTTOM
deriving DecidableEq, Repr

/-- Permission arguments of `pmp_set_keystone` used by `sm_init`
(sm.c:215-217). -/
inductive pmp_perm where
  | PMP_NO_PERM
  | PMP_ALL_PERM
deriving DecidableEq, Repr

/-- Compile-time constants and the one function-like test that `sm.c` takes
from headers outside the source tree. `word_bytes` is `sizeof(uintptr_t)`
(also the size of `unsigned long` and `size_t` on the target); `count_mod`
is the number of values of the type of `free_list.count` (`2 ^ 32` for a
32-bit integer). -/
structure Config where
  word_bytes : Nat
  count_mod : Nat
  SMM_BASE : Nat
  SMM_SIZE : Nat
  NVM_BASE : Nat
  NVM_SIZE : Nat
  NVM_BLOCK_SIZE : Nat
  MDSIZE : Nat
  SIGNATURE_SIZE : Nat
  PUBLIC_KEY_SIZE : Nat
  PRIVATE_KEY_SIZE : Nat
  SEALING_KEY_SIZE : Nat
  SBI_ERR_SM_ENCLAVE_SUCCESS : Int
  FREELIST_EMPTY : free_list → Bool

/-- Number of values of a machine word: `uintptr_t` arithmetic is taken
modulo this. -/
def word_mod (cfg : Config) : Nat := 256 ^ cfg.word_bytes

/-- Physical memory, one byte per address. -/
abbrev Mem := Nat → Nat

/-- Little-endian read of `n` bytes at address `a`. -/
def load_bytes (m : Mem) (a : Nat) : Nat → Nat
  | 0 => 0
  | n + 1 => load_bytes m a n + m (a + n) * 256 ^ n

/-- The read `*((uintptr_t*)a)`. -/
def load_word (cfg : Config) (m : Mem) (a : Nat) : Nat :=
  load_bytes m a cfg.word_bytes

/-- The write `*((uintptr_t*)a) = v`: the `word_bytes` bytes starting at `a`
receive the little-endian bytes of `v`, every other byte is unchanged. -/
def store_word (cfg : Config) (m : Mem) (a v : Nat) : Mem := fun x =>
  if a ≤ x ∧ x < a + cfg.word_bytes then v / 256 ^ (x - a) % 256 else m x

/-! ## `nvm_free_list_init` (sm.c:65-91) -/

/-- One pass through the body of the `for` loop (sm.c:73-85) at block
address `now`, on the descriptor `free_list_nvm` and memory. -/
def nvm_free_list_init_body (cfg : Config) (now : Nat) (s : free_list × Mem) :
    free_list × Mem :=
  let s1 : free_list × Mem :=
    if cfg.FREELIST_EMPTY s.1 = false then
      -- prev = free_list_nvm.tail; *((uintptr_t*)prev) = now;
      (s.1, store_word cfg s.2 s.1.tail now)
    else
      -- free_list_nvm.head = now;
      ({ s.1 with head := now }, s.2)
  -- *((uintptr_t*)now) = 0;
  let m2 := store_word cfg s1.2 now 0
  -- free_list_nvm.tail = now;
  let fl2 : free_list := { s1.1 with tail := now }
  -- free_list_nvm.count++;
  ({ fl2 with count := (fl2.count + 1) % cfg.count_mod }, m2)

/-- The loop `for(now = head; now < end; now += NVM_BLOCK_SIZE)` (sm.c:72),
entered with the current value of `now`; `none` when the iteration budget
`fuel` is used up before the loop condition fails. -/
def nvm_free_list_init_loop (cfg : Config) :
    Nat → Nat → Nat → free_list × Mem → Option (free_list × Mem)
  | 0, _, _, _ => none
  | fuel + 1, now, end_, s =>
    if now < end_ then
      nvm_free_list_init_loop cfg fuel ((now + cfg.NVM_BLOCK_SIZE) % word_mod cfg) end_
        (nvm_free_list_init_body cfg now s)
    else some s

/-- The function `nvm_free_list_init` (sm.c:65-91): returned value together
with the descriptor and memory it leaves. -/
def nvm_free_list_init (cfg : Config) (fuel : Nat) (s : free_list × Mem) :
    Option (Int × free_list × Mem) :=
  let head := cfg.NVM_BASE % word_mod cfg
  let end_ := (head + cfg.NVM_SIZE) % word_mod cfg
  (nvm_free_list_init_loop cfg fuel head end_ s).map fun s1 => (1, s1.1, s1.2)

/-- The function `nvm_free_list_init` executed `k` times, one execution after
the other, on the same descriptor and memory. -/
def nvm_free_list_init_repeat (cfg : Config) (fuel : Nat) :
    Nat → free_list × Mem → Option (free_list × Mem)
  | 0, s => some s
  | k + 1, s =>
    (nvm_free_list_init cfg fuel s).bind fun r =>
      nvm_free_list_init_repeat cfg fuel k (r.2.1, r.2.2)

/-- Follow the next-pointers stored in the first word of each block,
starting at `cur`, until the terminal zero pointer; the addresses visited in
order. `none` when more than `fuel` blocks are linked. -/
def walk (cfg : Config) (m : Mem) : Nat → Nat → Option (List Nat)
  | 0, _ => none
  | fuel + 1, cur =>
    if cur = 0 then some []
    else (walk cfg m fuel (load_word cfg m cur)).map fun rest => cur :: rest

/-- The empty descriptor: `free_list_nvm` has static storage and is zero at
boot. -/
def free_list_zero : free_list := ⟨0, 0, 0⟩

/-- Address of block number `i` of the region. -/
def block_addr (cfg : Config) (i : Nat) : Nat :=
  cfg.NVM_BASE + i * cfg.NVM_BLOCK_SIZE

/-- The first `n` block addresses of the region in ascending order:
`NVM_BASE`, `NVM_BASE + NVM_BLOCK_SIZE`, ... -/
def block_addrs (cfg : Config) (n : Nat) : List Nat :=
  (List.range n).map (block_addr cfg)

/-- Loop invariant of `nvm_free_list_init`: the current execution, entered
with `count = c`, has appended the blocks `0 .. i-1`; the head is `h`, the
tail is block `i-1`, and (when a block is large enough to hold a machine
word) every appended block links to the next one and the tail's link is
zero. -/
def Built (cfg : Config) (h c i : Nat) (s : free_list × Mem) : Prop :=
  s.1.head = h ∧ s.1.tail = block_addr cfg (i - 1) ∧ s.1.count = c + i ∧
  (cfg.word_bytes ≤ cfg.NVM_BLOCK_SIZE →
    (∀ j, j + 1 < i → load_word cfg s.2 (block_addr cfg j) = block_addr cfg (j + 1)) ∧
    load_word cfg s.2 (block_addr cfg (i - 1)) = 0)

/-! ## External interface -/

/-- What one hart does that is visible outside its own registers: calls of
external functions and accesses to the completion flag, in program order.
Calls of `sbi_printf` are diagnostics and are left out. -/
inductive Event where
  | sbi_ecall_register_extension
  | pmp_region_init_atomic (start size : Nat) (priority : pmp_priority)
      (is_default : Nat)
  | sbi_hart_hang
  | platform_init_global_once
  | sm_copy_key
  | enclave_init_metadata
  | store_sm_init_done (v : Int)
  | mb
  | load_sm_init_done (v : Int)
  | pmp_init
  | pmp_set_keystone (region_idx : Int) (perm : pmp_perm)
  | nvm_free_list_init
  | platform_init_global
deriving DecidableEq, Repr

/-- The external functions and boot-stage constants `sm.c` links against.
`pmp_region_init_atomic start size priority region is_default` gives the
returned status and the value it leaves in `*region` (entered holding
`region`); the last argument, 0 or 1 in `sm.c`, is the flag the interface
description calls `is_default`. -/
structure Env where
  pmp_region_init_atomic : Nat → Nat → pmp_priority → Int → Nat → Int × Int
  platform_init_global_once : Int
  platform_init_global : Nat → Int
  sanctum_sm_hash : List Nat
  sanctum_sm_signature : List Nat
  sanctum_sm_secret_key : List Nat
  sanctum_sm_public_key : List Nat
  sanctum_dev_public_key : List Nat

/-- The external `kdf(salt, salt_len, ikm, ikm_len, info, info_len, okm,
okm_len)`, a function of its inputs: salt (`none` for `NULL`), secret and
info with the lengths as passed, and the output length; gives the returned
status and the `okm_len` bytes written to `okm`. -/
abbrev Kdf :=
  Option (List Nat) → Nat → List Nat → Nat → List Nat → Nat → Nat → Int × List Nat

/-- The globals of `sm.c` (lines 18-34) and the physical memory behind the
non-volatile region. -/
structure Shared where
  sm_init_done : Int
  sm_region_id : Int
  nvm_region_id : Int
  os_region_id : Int
  free_list_nvm : free_list
  mem : Mem
  sm_hash : List Nat
  sm_signature : List Nat
  sm_public_key : List Nat
  sm_private_key : List Nat
  dev_public_key : List Nat

/-! ## Region registration (sm.c:42-63, 95-103) -/

/-- The function `smm_init` (sm.c:42-51): the external call it makes and the
value it returns. -/
def smm_init (cfg : Config) (env : Env) : List Event × Int :=
  let region : Int := -1
  let r := env.pmp_region_init_atomic cfg.SMM_BASE cfg.SMM_SIZE .PMP_PRI_TOP region 0
  ([.pmp_region_init_atomic cfg.SMM_BASE cfg.SMM_SIZE .PMP_PRI_TOP 0],
    if r.1 ≠ 0 then -1 else r.2)

/-- The function `nvm_init` (sm.c:53-63). -/
def nvm_init (cfg : Config) (env : Env) : List Event × Int :=
  let region : Int := -1
  let r := env.pmp_region_init_atomic cfg.NVM_BASE cfg.NVM_SIZE .PMP_PRI_NEXT region 0
  ([.pmp_region_init_atomic cfg.NVM_BASE cfg.NVM_SIZE .PMP_PRI_NEXT 0],
    if r.1 ≠ 0 then -1 else r.2)

/-- The function `osm_init` (sm.c:95-103); `-1UL` is the all-ones word. -/
def osm_init (cfg : Config) (env : Env) : List Event × Int :=
  let region : Int := -1
  let r := env.pmp_region_init_atomic 0 (word_mod cfg - 1) .PMP_PRI_BOTTOM region 1
  ([.pmp_region_init_atomic 0 (word_mod cfg - 1) .PMP_PRI_BOTTOM 1],
    if r.1 ≠ 0 then -1 else r.2)

/-! ## Key material (sm.c:112-137) -/

/-- The call `sbi_memcpy(dest, src, n)` on byte arrays: the first `n` bytes of
`dest` are replaced by the first `n` bytes of `src`. The copy stops at the
end of either array: accesses past an array are not modelled. -/
def sbi_memcpy : List Nat → List Nat → Nat → List Nat
  | _ :: ds, b :: bs, n + 1 => b :: sbi_memcpy ds bs n
  | ds, _, _ => ds

/-- The function `sm_copy_key` (sm.c:130-137). -/
def sm_copy_key (cfg : Config) (env : Env) (sh : Shared) : Shared :=
  { sh with
    sm_hash := sbi_memcpy sh.sm_hash env.sanctum_sm_hash cfg.MDSIZE
    sm_signature := sbi_memcpy sh.sm_signature env.sanctum_sm_signature cfg.SIGNATURE_SIZE
    sm_public_key := sbi_memcpy sh.sm_public_key env.sanctum_sm_public_key cfg.PUBLIC_KEY_SIZE
    sm_private_key :=
      sbi_memcpy sh.sm_private_key env.sanctum_sm_secret_key cfg.PRIVATE_KEY_SIZE
    dev_public_key :=
      sbi_memcpy sh.dev_public_key env.sanctum_dev_public_key cfg.PUBLIC_KEY_SIZE }

/-- The function `sm_derive_sealing_key` (sm.c:112-128). `stack` is what the
bytes of the fresh array `info` happen to hold; the result is the returned
status and the bytes left in `key`. -/
def sm_derive_sealing_key (cfg : Config) (kdf : Kdf) (sm_private_key : List Nat)
    (stack : Nat → Nat) (key_ident : List Nat) (key_ident_size : Nat)
    (enclave_hash : List Nat) : Int × List Nat :=
  -- unsigned char info[MDSIZE + key_ident_size];
  let info_size := (cfg.MDSIZE + key_ident_size) % word_mod cfg
  let info0 := (List.range info_size).map stack
  -- sbi_memcpy(info, enclave_hash, MDSIZE);
  let info1 := sbi_memcpy info0 enclave_hash cfg.MDSIZE
  -- sbi_memcpy(info + MDSIZE, key_ident, key_ident_size);
  let info2 :=
    info1.take cfg.MDSIZE ++ sbi_memcpy (info1.drop cfg.MDSIZE) key_ident key_ident_size
  -- return kdf(NULL, 0, sm_private_key, PRIVATE_KEY_SIZE, info, MDSIZE + key_ident_size,
  --            key, SEALING_KEY_SIZE);
  kdf none 0 sm_private_key cfg.PRIVATE_KEY_SIZE info2 info_size cfg.SEALING_KEY_SIZE

/-! ## `sm_init` (sm.c:162-235) -/

/-- Program points of `sm_init`, one per statement; the `hang_*` points are
the calls of `sbi_hart_hang`, which does not return. -/
inductive PC where
  | entry
  | ecall_register
  | smm_call
  | smm_check
  | nvm_call
  | nvm_check
  | osm_call
  | osm_check
  | platform_once
  | copy_key
  | init_metadata
  | set_done
  | mb_done
  | wait_test
  | wait_mb
  | pmp_init
  | perm_sm
  | perm_nvm
  | perm_os
  | freelist_enter
  | freelist_loop
  | platform_global
  | returned
  | hang_smm
  | hang_nvm
  | hang_osm
  | hang_platform_once
  | hang_platform_global
deriving DecidableEq, Repr

/-- One hart inside `sm_init`: its argument, its program point, the locals
`now` and `end` of the inlined `nvm_free_list_init`, and what it has done so
far. -/
structure Core where
  cold_boot : Bool
  pc : PC
  now : Nat
  end_ : Nat
  trace : List Event

/-- One statement of `sm_init` executed by hart `hartid`, on the shared
globals. -/
def sm_init_step (cfg : Config) (env : Env) (hartid : Nat) (sh : Shared) (c : Core) :
    Shared × Core :=
  match c.pc with
  | .entry =>
    -- sm.c:165  if (cold_boot)
    (sh, { c with pc := if c.cold_boot then .ecall_register else .wait_test })
  | .ecall_register =>
    -- sm.c:169  sbi_ecall_register_extension(&ecall_keystone_enclave);
    (sh, { c with pc := .smm_call, trace := c.trace ++ [.sbi_ecall_register_extension] })
  | .smm_call =>
    -- sm.c:172  sm_region_id = smm_init();
    ({ sh with sm_region_id := (smm_init cfg env).2 },
      { c with pc := .smm_check, trace := c.trace ++ (smm_init cfg env).1 })
  | .smm_check =>
    -- sm.c:173-176  if(sm_region_id < 0) sbi_hart_hang();
    if sh.sm_region_id < 0 then
      (sh, { c with pc := .hang_smm, trace := c.trace ++ [.sbi_hart_hang] })
    else (sh, { c with pc := .nvm_call })
  | .nvm_call =>
    -- sm.c:180  nvm_region_id = nvm_init();
    ({ sh with nvm_region_id := (nvm_init cfg env).2 },
      { c with pc := .nvm_check, trace := c.trace ++ (nvm_init cfg env).1 })
  | .nvm_check =>
    -- sm.c:181-184  if(nvm_region_id < 0) sbi_hart_hang();
    if sh.nvm_region_id < 0 then
      (sh, { c with pc := .hang_nvm, trace := c.trace ++ [.sbi_hart_hang] })
    else (sh, { c with pc := .osm_call })
  | .osm_call =>
    -- sm.c:187  os_region_id = osm_init();
    ({ sh with os_region_id := (osm_init cfg env).2 },
      { c with pc := .osm_check, trace := c.trace ++ (osm_init cfg env).1 })
  | .osm_check =>
    -- sm.c:188-191  if(os_region_id < 0) sbi_hart_hang();
    if sh.os_region_id < 0 then
      (sh, { c with pc := .hang_osm, trace := c.trace ++ [.sbi_hart_hang] })
    else (sh, { c with pc := .platform_once })
  | .platform_once =>
    -- sm.c:193-196  if (platform_init_global_once() != SBI_ERR_SM_ENCLAVE_SUCCESS)
    --                 sbi_hart_hang();
    if env.platform_init_global_once ≠ cfg.SBI_ERR_SM_ENCLAVE_SUCCESS then
      (sh, { c with pc := .hang_platform_once,
                    trace := c.trace ++ [.platform_init_global_once, .sbi_hart_hang] })
    else (sh, { c with pc := .copy_key, trace := c.trace ++ [.platform_init_global_once] })
  | .copy_key =>
    -- sm.c:198  sm_copy_key();
    (sm_copy_key cfg env sh, { c with pc := .init_metadata, trace := c.trace ++ [.sm_copy_key] })
  | .init_metadata =>
    -- sm.c:201  enclave_init_metadata();
    (sh, { c with pc := .set_done, trace := c.trace ++ [.enclave_init_metadata] })
  | .set_done =>
    -- sm.c:203  sm_init_done = 1;
    ({ sh with sm_init_done := 1 },
      { c with pc := .mb_done, trace := c.trace ++ [.store_sm_init_done 1] })
  | .mb_done =>
    -- sm.c:204  mb();
    (sh, { c with pc := .wait_test, trace := c.trace ++ [.mb] })
  | .wait_test =>
    -- sm.c:208  while (!sm_init_done)
    (sh, { c with pc := if sh.sm_init_done = 0 then .wait_mb else .pmp_init,
                  trace := c.trace ++ [.load_sm_init_done sh.sm_init_done] })
  | .wait_mb =>
    -- sm.c:210  mb();
    (sh, { c with pc := .wait_test, trace := c.trace ++ [.mb] })
  | .pmp_init =>
    -- sm.c:214  pmp_init();
    (sh, { c with pc := .perm_sm, trace := c.trace ++ [.pmp_init] })
  | .perm_sm =>
    -- sm.c:215  pmp_set_keystone(sm_region_id, PMP_NO_PERM);
    (sh, { c with pc := .perm_nvm,
                  trace := c.trace ++ [.pmp_set_keystone sh.sm_region_id .PMP_NO_PERM] })
  | .perm_nvm =>
    -- sm.c:216  pmp_set_keystone(nvm_region_id, PMP_NO_PERM);
    (sh, { c with pc := .perm_os,
                  trace := c.trace ++ [.pmp_set_keystone sh.nvm_region_id .PMP_NO_PERM] })
  | .perm_os =>
    -- sm.c:217  pmp_set_keystone(os_region_id, PMP_ALL_PERM);
    (sh, { c with pc := .freelist_enter,
                  trace := c.trace ++ [.pmp_set_keystone sh.os_region_id .PMP_ALL_PERM] })
  | .freelist_enter =>
    -- sm.c:219, 66-67  int res = nvm_free_list_init(); head = NVM_BASE; end = head + NVM_SIZE;
    (sh, { c with pc := .freelist_loop,
                  now := cfg.NVM_BASE % word_mod cfg,
                  end_ := (cfg.NVM_BASE % word_mod cfg + cfg.NVM_SIZE) % word_mod cfg,
                  trace := c.trace ++ [.nvm_free_list_init] })
  | .freelist_loop =>
    -- sm.c:72-87  one test of `now < end`, and one pass through the body
    if c.now < c.end_ then
      let s := nvm_free_list_init_body cfg c.now (sh.free_list_nvm, sh.mem)
      ({ sh with free_list_nvm := s.1, mem := s.2 },
        { c with now := (c.now + cfg.NVM_BLOCK_SIZE) % word_mod cfg })
    else (sh, { c with pc := .platform_global })
  | .platform_global =>
    -- sm.c:225-228  if (platform_init_global() != SBI_ERR_SM_ENCLAVE_SUCCESS)
    --                 sbi_hart_hang();
    if env.platform_init_global hartid ≠ cfg.SBI_ERR_SM_ENCLAVE_SUCCESS then
      (sh, { c with pc := .hang_platform_global,
                    trace := c.trace ++ [.platform_init_global, .sbi_hart_hang] })
    else (sh, { c with pc := .returned, trace := c.trace ++ [.platform_init_global] })
  | .returned => (sh, c)
  | .hang_smm => (sh, c)
  | .hang_nvm => (sh, c)
  | .hang_osm => (sh, c)
  | .hang_platform_once => (sh, c)
  | .hang_platform_global => (sh, c)

/-- The machine: the shared globals and every hart. -/
structure Sys where
  sh : Shared
  harts : Nat → Core

/-- Hart `i` executes its next statement. -/
def Sys.step (cfg : Config) (env : Env) (s : Sys) (i : Nat) : Sys :=
  { sh := (sm_init_step cfg env i s.sh (s.harts i)).1
    harts := Function.update s.harts i (sm_init_step cfg env i s.sh (s.harts i)).2 }

/-- The harts named by `sched` take one step each, in that order. -/
def run (cfg : Config) (env : Env) (s : Sys) (sched : List Nat) : Sys :=
  sched.foldl (Sys.step cfg env) s

/-- The globals at reset: zero-initialised statics, memory `m0`. -/
def Shared.reset (cfg : Config) (m0 : Mem) : Shared where
  sm_init_done := 0
  sm_region_id := 0
  nvm_region_id := 0
  os_region_id := 0
  free_list_nvm := free_list_zero
  mem := m0
  sm_hash := List.replicate cfg.MDSIZE 0
  sm_signature := List.replicate cfg.SIGNATURE_SIZE 0
  sm_public_key := List.replicate cfg.PUBLIC_KEY_SIZE 0
  sm_private_key := List.replicate cfg.PRIVATE_KEY_SIZE 0
  dev_public_key := List.replicate cfg.PUBLIC_KEY_SIZE 0

/-- Every hart about to enter `sm_init`; hart `cold` is the one called with
`cold_boot = true`, all others with `false`. -/
def boot (cfg : Config) (m0 : Mem) (cold : Nat) : Sys where
  sh := Shared.reset cfg m0
  harts := fun i =>
    { cold_boot := decide (i = cold), pc := .entry, now := 0, end_ := 0, trace := [] }

/-! ## Observations used in the statements -/

/-- Calls of the registration primitive. -/
def Event.is_registration : Event → Bool
  | .pmp_region_init_atomic _ _ _ _ => true
  | _ => false

/-- Calls of `pmp_init` and `pmp_set_keystone`. -/
def Event.is_pmp : Event → Bool
  | .pmp_init => true
  | .pmp_set_keystone _ _ => true
  | _ => false

/-- The one-time steps of the cold-boot path: registrations, the one-time
platform hook, the key copy and the write of the completion flag. -/
def Event.is_one_time : Event → Bool
  | .pmp_region_init_atomic _ _ _ _ => true
  | .platform_init_global_once => true
  | .sm_copy_key => true
  | .store_sm_init_done _ => true
  | _ => false

/-- Steps that only the part of the cold-boot path after the registrations
performs. -/
def Event.is_after_registration : Event → Bool
  | .platform_init_global_once => true
  | .sm_copy_key => true
  | .enclave_init_metadata => true
  | .store_sm_init_done _ => true
  | _ => false

/-- The program points behind the spin-wait of sm.c:208-211. -/
def PC.past_wait : PC → Bool
  | .pmp_init | .perm_sm | .perm_nvm | .perm_os | .freelist_enter | .freelist_loop
  | .platform_global | .returned | .hang_platform_global => true
  | _ => false

/-- The program points behind the three permission calls of sm.c:215-217. -/
def PC.past_permissions : PC → Bool
  | .freelist_enter | .freelist_loop | .platform_global | .returned
  | .hang_platform_global => true
  | _ => false

/-- The program points of the spin-wait, and the entry in front of it. -/
def PC.in_wait : PC → Bool
  | .entry | .wait_test | .wait_mb => true
  | _ => false

/-- The program points at which the hart sits in `sbi_hart_hang`. -/
def PC.halted : PC → Bool
  | .hang_smm | .hang_nvm | .hang_osm | .hang_platform_once | .hang_platform_global => true
  | _ => false

/-- Accesses to the completion flag and barriers: the events of the
spin-wait. -/
def Event.is_sync : Event → Bool
  | .mb => true
  | .load_sm_init_done _ => true
  | _ => false

/-! ## Bookkeeping for the invariant of `sm_init` -/

/-- How far along `sm_init` a program point is. A `hang_*` point has the
stage of the check that led to it; `wait_mb` sits in front of `wait_test`. -/
def PC.stage : PC → Nat
  | .entry => 0
  | .ecall_register => 1
  | .smm_call => 2
  | .smm_check => 3
  | .hang_smm => 3
  | .nvm_call => 4
  | .nvm_check => 5
  | .hang_nvm => 5
  | .osm_call => 6
  | .osm_check => 7
  | .hang_osm => 7
  | .platform_once => 8
  | .hang_platform_once => 8
  | .copy_key => 9
  | .init_metadata => 10
  | .set_done => 11
  | .mb_done => 12
  | .wait_mb => 12
  | .wait_test => 13
  | .pmp_init => 14
  | .perm_sm => 15
  | .perm_nvm => 16
  | .perm_os => 17
  | .freelist_enter => 18
  | .freelist_loop => 19
  | .platform_global => 20
  | .returned => 21
  | .hang_platform_global => 21

/-- The events, other than those of the spin-wait, that the cold-boot hart
has issued in the cold-boot section (sm.c:165-205) when it stands at `pc`. -/
def cold_events (cfg : Config) (env : Env) (pc : PC) : List Event :=
  (if 2 ≤ pc.stage then [.sbi_ecall_register_extension] else []) ++
  (if 3 ≤ pc.stage then (smm_init cfg env).1 else []) ++
  (if 5 ≤ pc.stage then (nvm_init cfg env).1 else []) ++
  (if 7 ≤ pc.stage then (osm_init cfg env).1 else []) ++
  (if 9 ≤ pc.stage then [.platform_init_global_once] else []) ++
  (if 10 ≤ pc.stage then [.sm_copy_key] else []) ++
  (if 11 ≤ pc.stage then [.enclave_init_metadata] else []) ++
  (if 12 ≤ pc.stage then [.store_sm_init_done 1] else []) ++
  (if pc = .hang_platform_once then [.platform_init_global_once] else []) ++
  (if pc.halted = true ∧ pc.stage ≤ 8 then [.sbi_hart_hang] else [])

/-- The permission calls of sm.c:214-217, with the handles the three
registrations of the cold-boot hart returned. -/
def permission_calls (cfg : Config) (env : Env) : List Event :=
  [.pmp_init,
   .pmp_set_keystone (smm_init cfg env).2 .PMP_NO_PERM,
   .pmp_set_keystone (nvm_init cfg env).2 .PMP_NO_PERM,
   .pmp_set_keystone (osm_init cfg env).2 .PMP_ALL_PERM]

/-- The events, other than those of the spin-wait, that a hart has issued
behind the spin-wait (sm.c:213-228) when it stands at `pc`. -/
def post_events (cfg : Config) (env : Env) (pc : PC) : List Event :=
  (permission_calls cfg env).take (pc.stage - 14) ++
  (if 19 ≤ pc.stage then [.nvm_free_list_init] else []) ++
  (if 21 ≤ pc.stage then [.platform_init_global] else []) ++
  (if pc = .hang_platform_global then [.sbi_hart_hang] else [])

/-- What the globals hold when the cold-boot hart stands at `pc`. -/
structure ColdInv (cfg : Config) (env : Env) (sh : Shared) (pc : PC) : Prop where
  done : sh.sm_init_done = if 12 ≤ pc.stage then 1 else 0
  sm_id : 3 ≤ pc.stage → sh.sm_region_id = (smm_init cfg env).2
  sm_ok : 4 ≤ pc.stage → 0 ≤ (smm_init cfg env).2
  sm_bad : pc = .hang_smm → (smm_init cfg env).2 < 0
  nvm_id : 5 ≤ pc.stage → sh.nvm_region_id = (nvm_init cfg env).2
  nvm_ok : 6 ≤ pc.stage → 0 ≤ (nvm_init cfg env).2
  nvm_bad : pc = .hang_nvm → (nvm_init cfg env).2 < 0
  os_id : 7 ≤ pc.stage → sh.os_region_id = (osm_init cfg env).2
  os_ok : 8 ≤ pc.stage → 0 ≤ (osm_init cfg env).2
  os_bad : pc = .hang_osm → (osm_init cfg env).2 < 0
  once_ok : 9 ≤ pc.stage → env.platform_init_global_once = cfg.SBI_ERR_SM_ENCLAVE_SUCCESS
  once_bad : pc = .hang_platform_once →
    env.platform_init_global_once ≠ cfg.SBI_ERR_SM_ENCLAVE_SUCCESS

/-- What holds of one hart: its argument, the events it has issued, where it
can stand, and that it is behind the spin-wait only once the flag is set.
`cold` tells whether it is the cold-boot hart. -/
structure HartInv (cfg : Config) (env : Env) (sh : Shared) (cold : Bool) (c : Core) :
    Prop where
  arg : c.cold_boot = cold
  events : c.trace.filter (fun e => !e.is_sync) =
    (if cold then cold_events cfg env c.pc else []) ++ post_events cfg env c.pc
  place : cold = false → c.pc.in_wait = true ∨ c.pc.past_wait = true
  flag : c.pc.past_wait = true → sh.sm_init_done = 1

/-- The invariant of the machine booted with cold-boot hart `c0`. -/
structure Inv (cfg : Config) (env : Env) (c0 : Nat) (s : Sys) : Prop where
  cold : ColdInv cfg env s.sh (s.harts c0).pc
  hart : ∀ i, HartInv cfg env s.sh (decide (i = c0)) (s.harts i)

/-- A reference configuration: a 64-bit target with a 32-bit counter, the
region of the end-to-end scenario (`NVM_BASE = 0x80000000`, `NVM_SIZE = 0x4000`,
`NVM_BLOCK_SIZE = 0x1000`), Keystone's buffer sizes, and a descriptor that
counts as empty when it has no block or no head. -/
def cfg0 : Config where
  word_bytes := 8
  count_mod := 2 ^ 32
  SMM_BASE := 0x80000000 - 0x200000
  SMM_SIZE := 0x200000
  NVM_BASE := 0x80000000
  NVM_SIZE := 0x4000
  NVM_BLOCK_SIZE := 0x1000
  MDSIZE := 64
  SIGNATURE_SIZE := 64
  PUBLIC_KEY_SIZE := 32
  PRIVATE_KEY_SIZE := 64
  SEALING_KEY_SIZE := 128
  SBI_ERR_SM_ENCLAVE_SUCCESS := 0
  FREELIST_EMPTY := fun fl => fl.count == 0 || fl.head == 0

/-- An environment in which every external call succeeds: the registrations
hand out the handles 0, 1 and 2. -/
def env_ok : Env where
  pmp_region_init_atomic := fun _ _ pri _ _ =>
    match pri with
    | .PMP_PRI_TOP => (0, 0)
    | .PMP_PRI_NEXT => (0, 1)
    | .PMP_PRI_BOTTOM => (0, 2)
  platform_init_global_once := 0
  platform_init_global := fun _ => 0
  sanctum_sm_hash := List.replicate 64 1
  sanctum_sm_signature := List.replicate 64 2
  sanctum_sm_secret_key := List.replicate 64 3
  sanctum_sm_public_key := List.replicate 32 4
  sanctum_dev_public_key := List.replicate 32 5

/-- As `env_ok`, but the registration of the non-volatile region fails. -/
def env_nvm_fails : Env :=
  { env_ok with
    pmp_region_init_atomic := fun _ _ pri _ _ =>
      match pri with
      | .PMP_PRI_TOP => (0, 0)
      | .PMP_PRI_NEXT => (-1, -1)
      | .PMP_PRI_BOTTOM => (0, 2) }

/-- The reference machine after hart 0 (cold boot) and then hart 1 have run
`sm_init` to its return, one after the other. -/
def two_harts_booted : Sys :=
  run cfg0 env_ok (boot cfg0 (fun _ => 0) 0) (List.replicate 25 0 ++ List.replicate 15 1)

/-- A stand-in for the external `kdf`, to evaluate `sm_derive_sealing_key`
on: the first `okm_len` bytes of secret followed by info. -/
def kdf0 : Kdf := fun _ _ ikm ikm_len info info_len okm_len =>
  (0, (ikm.take ikm_len ++ info.take info_len).take okm_len)

/-! ## Memory: reading back what was written -/

theorem load_bytes_store_word (cfg : Config) (m : Mem) (a v : Nat) :
    ∀ n, n ≤ cfg.word_bytes → load_bytes (store_word cfg m a v) a n = v % 256 ^ n := by
  intro n
  induction n with
  | zero => intro _; simp [load_bytes, Nat.mod_one]
  | succ n ih =>
    intro hn
    have hb : store_word cfg m a v (a + n) = v / 256 ^ n % 256 := by
      have : a ≤ a + n ∧ a + n < a + cfg.word_bytes := ⟨by omega, by omega⟩
      simp [store_word, this]
    rw [load_bytes, ih (by omega), hb, Nat.mod_pow_succ, Nat.mul_comm]

theorem load_word_store_word_same (cfg : Config) (m : Mem) (a v : Nat)
    (hv : v < word_mod cfg) : load_word cfg (store_word cfg m a v) a = v := by
  unfold load_word
  rw [load_bytes_store_word cfg m a v _ (le_refl _)]
  exact Nat.mod_eq_of_lt hv

theorem load_bytes_congr (m1 m2 : Mem) (a : Nat) :
    ∀ n, (∀ j, j < n → m1 (a + j) = m2 (a + j)) → load_bytes m1 a n = load_bytes m2 a n := by
  intro n
  induction n with
  | zero => intro _; rfl
  | succ n ih =>
    intro h
    rw [load_bytes, load_bytes, ih (fun j hj => h j (by omega)), h n (by omega)]

theorem load_word_store_word_other (cfg : Config) (m : Mem) (a b v : Nat)
    (h : a + cfg.word_bytes ≤ b ∨ b + cfg.word_bytes ≤ a) :
    load_word cfg (store_word cfg m a v) b = load_word cfg m b := by
  unfold load_word
  apply load_bytes_congr
  intro j hj
  have : ¬ (a ≤ b + j ∧ b + j < a + cfg.word_bytes) := by omega
  simp [store_word, this]

/-! ## The loop of `nvm_free_list_init` -/

theorem word_mod_pos (cfg : Config) : 0 < word_mod cfg := by
  unfold word_mod
  positivity

theorem block_addr_zero (cfg : Config) : block_addr cfg 0 = cfg.NVM_BASE := by
  simp [block_addr]

theorem block_addr_succ (cfg : Config) (i : Nat) :
    block_addr cfg (i + 1) = block_addr cfg i + cfg.NVM_BLOCK_SIZE := by
  unfold block_addr
  rw [Nat.succ_mul]
  omega

theorem block_addr_le (cfg : Config) {i j : Nat} (h : i ≤ j) :
    block_addr cfg i ≤ block_addr cfg j := by
  unfold block_addr
  have := Nat.mul_le_mul_right cfg.NVM_BLOCK_SIZE h
  omega

/-- The first pass through the loop body, whatever the descriptor holds. -/
theorem Built_first (cfg : Config) (s : free_list × Mem)
    (hcnt : s.1.count + 1 < cfg.count_mod) :
    Built cfg (if cfg.FREELIST_EMPTY s.1 = false then s.1.head else cfg.NVM_BASE)
      s.1.count 1 (nvm_free_list_init_body cfg cfg.NVM_BASE s) := by
  have h0 := word_mod_pos cfg
  unfold Built nvm_free_list_init_body
  cases hE : cfg.FREELIST_EMPTY s.1
  · refine ⟨by simp, by simp [block_addr_zero], by simp [Nat.mod_eq_of_lt hcnt],
      fun _ => ⟨fun j hj => by omega, ?_⟩⟩
    simp only [Nat.sub_self, block_addr_zero]
    exact load_word_store_word_same cfg _ _ 0 h0
  · refine ⟨by simp, by simp [block_addr_zero], by simp [Nat.mod_eq_of_lt hcnt],
      fun _ => ⟨fun j hj => by omega, ?_⟩⟩
    simp only [Nat.sub_self, block_addr_zero]
    exact load_word_store_word_same cfg _ _ 0 h0

/-- A later pass through the loop body appends the next block. -/
theorem Built_step (cfg : Config) (h c i : Nat) (s : free_list × Mem)
    (hne : ∀ fl : free_list, fl.head ≠ 0 → fl.tail ≠ 0 → fl.count ≠ 0 →
      cfg.FREELIST_EMPTY fl = false)
    (hh : h ≠ 0) (hbase : cfg.NVM_BASE ≠ 0) (hi : 1 ≤ i)
    (hfit : block_addr cfg i < word_mod cfg) (hcnt : c + (i + 1) < cfg.count_mod)
    (hB : Built cfg h c i s) :
    Built cfg h c (i + 1) (nvm_free_list_init_body cfg (block_addr cfg i) s) := by
  obtain ⟨h1, h2, h3, h4⟩ := hB
  have htail : s.1.tail ≠ 0 := by
    rw [h2]; unfold block_addr; omega
  have he : cfg.FREELIST_EMPTY s.1 = false := hne s.1 (by rw [h1]; exact hh) htail (by omega)
  have h0 := word_mod_pos cfg
  have hprev : block_addr cfg (i - 1) + cfg.NVM_BLOCK_SIZE = block_addr cfg i := by
    rw [← block_addr_succ]; congr 1; omega
  unfold Built nvm_free_list_init_body
  simp only [he, if_true, Nat.add_sub_cancel]
  refine ⟨h1, trivial, by rw [h3, Nat.mod_eq_of_lt (by omega)]; omega,
    fun hw => ⟨fun j hj => ?_, ?_⟩⟩
  · obtain ⟨h5, _⟩ := h4 hw
    have hji : block_addr cfg (j + 1) ≤ block_addr cfg i := block_addr_le cfg (by omega)
    rw [block_addr_succ] at hji
    rw [load_word_store_word_other cfg _ _ _ _ (Or.inr (by omega))]
    by_cases hlast : j + 1 = i
    · have hj1 : j = i - 1 := by omega
      rw [h2, hj1, load_word_store_word_same cfg _ _ _ hfit]
      congr 1; omega
    · have hjt : block_addr cfg (j + 1) ≤ block_addr cfg (i - 1) :=
        block_addr_le cfg (by omega)
      rw [block_addr_succ] at hjt
      rw [h2, load_word_store_word_other cfg _ _ _ _ (Or.inr (by omega))]
      exact h5 j (by omega)
  · exact load_word_store_word_same cfg _ _ 0 h0

/-- From block `i` on, the loop runs to the end of the region and stops. -/
theorem loop_Built (cfg : Config) (h c n : Nat)
    (hne : ∀ fl : free_list, fl.head ≠ 0 → fl.tail ≠ 0 → fl.count ≠ 0 →
      cfg.FREELIST_EMPTY fl = false)
    (hh : h ≠ 0) (hbase : cfg.NVM_BASE ≠ 0) (hbs : 0 < cfg.NVM_BLOCK_SIZE)
    (hwrap : block_addr cfg n < word_mod cfg) (hcnt : c + n < cfg.count_mod) :
    ∀ k i fuel (s : free_list × Mem), i + k = n → 1 ≤ i → k < fuel → Built cfg h c i s →
      ∃ s1, nvm_free_list_init_loop cfg fuel (block_addr cfg i) (block_addr cfg n) s = some s1 ∧
        Built cfg h c n s1 := by
  intro k
  induction k with
  | zero =>
    intro i fuel s hik hi hf hB
    obtain ⟨f, rfl⟩ : ∃ f, fuel = f + 1 := ⟨fuel - 1, by omega⟩
    have : i = n := by omega
    subst this
    exact ⟨s, by simp [nvm_free_list_init_loop], hB⟩
  | succ k ih =>
    intro i fuel s hik hi hf hB
    obtain ⟨f, rfl⟩ : ∃ f, fuel = f + 1 := ⟨fuel - 1, by omega⟩
    have hle : block_addr cfg (i + 1) ≤ block_addr cfg n := block_addr_le cfg (by omega)
    have hs := block_addr_succ cfg i
    have hlt : block_addr cfg i < block_addr cfg n := by omega
    have hnext : (block_addr cfg i + cfg.NVM_BLOCK_SIZE) % word_mod cfg =
        block_addr cfg (i + 1) := by
      rw [← hs]; exact Nat.mod_eq_of_lt (by omega)
    rw [nvm_free_list_init_loop, if_pos hlt, hnext]
    exact ih (i + 1) f _ (by omega) (by omega) (by omega)
      (Built_step cfg h c i s hne hh hbase hi (by omega) (by omega) hB)

/-- The head a run of `nvm_free_list_init` leaves, by the descriptor it
finds. -/
theorem nvm_free_list_init_Built (cfg : Config) (n fuel : Nat) (s : free_list × Mem)
    (hne : ∀ fl : free_list, fl.head ≠ 0 → fl.tail ≠ 0 → fl.count ≠ 0 →
      cfg.FREELIST_EMPTY fl = false)
    (hstart : cfg.FREELIST_EMPTY s.1 = false → s.1.head ≠ 0)
    (hbase : cfg.NVM_BASE ≠ 0) (hwrap : cfg.NVM_BASE + cfg.NVM_SIZE < word_mod cfg)
    (hn : 0 < n) (hbs : 0 < cfg.NVM_BLOCK_SIZE) (hsize : cfg.NVM_SIZE = n * cfg.NVM_BLOCK_SIZE)
    (hcnt : s.1.count + n < cfg.count_mod) (hfuel : n < fuel) :
    ∃ s1, nvm_free_list_init cfg fuel s = some (1, s1.1, s1.2) ∧
      Built cfg (if cfg.FREELIST_EMPTY s.1 = false then s.1.head else cfg.NVM_BASE)
        s.1.count n s1 := by
  have hend : cfg.NVM_BASE + cfg.NVM_SIZE = block_addr cfg n := by
    unfold block_addr; rw [hsize]
  have hb : cfg.NVM_BASE % word_mod cfg = cfg.NVM_BASE := Nat.mod_eq_of_lt (by omega)
  have he : (cfg.NVM_BASE + cfg.NVM_SIZE) % word_mod cfg = block_addr cfg n := by
    rw [← hend]; exact Nat.mod_eq_of_lt hwrap
  obtain ⟨f, rfl⟩ : ∃ f, fuel = f + 1 := ⟨fuel - 1, by omega⟩
  have h1 : block_addr cfg 1 ≤ block_addr cfg n := block_addr_le cfg hn
  have hs : block_addr cfg 1 = cfg.NVM_BASE + cfg.NVM_BLOCK_SIZE := by
    unfold block_addr; omega
  have hlt : cfg.NVM_BASE < block_addr cfg n := by omega
  have hnext : (cfg.NVM_BASE + cfg.NVM_BLOCK_SIZE) % word_mod cfg = block_addr cfg 1 := by
    rw [← hs]; exact Nat.mod_eq_of_lt (by omega)
  have hh : (if cfg.FREELIST_EMPTY s.1 = false then s.1.head else cfg.NVM_BASE) ≠ 0 := by
    by_cases hE : cfg.FREELIST_EMPTY s.1 = false
    · simp only [hE, if_true]; exact hstart hE
    · simp only [hE, if_false]; exact hbase
  obtain ⟨s1, hrun, hB⟩ := loop_Built cfg _ s.1.count n hne hh hbase hbs (by omega) hcnt
    (n - 1) 1 f _ (by omega) (le_refl _) (by omega) (Built_first cfg s (by omega))
  refine ⟨s1, ?_, hB⟩
  unfold nvm_free_list_init
  simp only [hb, he]
  rw [nvm_free_list_init_loop, if_pos hlt, hnext, hrun]
  rfl

/-- Size and block count of a region that is a positive multiple of the
block size. -/
theorem region_blocks (cfg : Config) (hpos : 0 < cfg.NVM_SIZE)
    (hdvd : cfg.NVM_BLOCK_SIZE ∣ cfg.NVM_SIZE) :
    0 < cfg.NVM_SIZE / cfg.NVM_BLOCK_SIZE ∧ 0 < cfg.NVM_BLOCK_SIZE ∧
      cfg.NVM_SIZE = cfg.NVM_SIZE / cfg.NVM_BLOCK_SIZE * cfg.NVM_BLOCK_SIZE := by
  have hbs : 0 < cfg.NVM_BLOCK_SIZE := by
    rcases Nat.eq_zero_or_pos cfg.NVM_BLOCK_SIZE with h | h
    · rw [h] at hdvd
      have := Nat.eq_zero_of_zero_dvd hdvd
      omega
    · exact h
  refine ⟨Nat.div_pos (Nat.le_of_dvd hpos hdvd) hbs, hbs, ?_⟩
  exact (Nat.div_mul_cancel hdvd).symm

/-- Walking a built list from block `i` visits the blocks `i .. n-1`. -/
theorem walk_blocks (cfg : Config) (m : Mem) (n : Nat) (hbase : cfg.NVM_BASE ≠ 0)
    (hlinks : ∀ j, j + 1 < n → load_word cfg m (block_addr cfg j) = block_addr cfg (j + 1))
    (hlast : load_word cfg m (block_addr cfg (n - 1)) = 0) :
    ∀ k i fuel, i + (k + 1) = n → k + 1 < fuel →
      walk cfg m fuel (block_addr cfg i) = some ((List.range' i (k + 1)).map (block_addr cfg)) := by
  have hnz : ∀ i, block_addr cfg i ≠ 0 := by
    intro i; unfold block_addr; omega
  intro k
  induction k with
  | zero =>
    intro i fuel hi hf
    obtain ⟨f, rfl⟩ : ∃ f, fuel = f + 2 := ⟨fuel - 2, by omega⟩
    have hin : i = n - 1 := by omega
    rw [walk, if_neg (hnz i), hin, hlast, walk]
    simp
  | succ k ih =>
    intro i fuel hi hf
    obtain ⟨f, rfl⟩ : ∃ f, fuel = f + 1 := ⟨fuel - 1, by omega⟩
    rw [walk, if_neg (hnz i), hlinks i (by omega), ih (i + 1) f (by omega) (by omega)]
    rw [List.range'_succ i (k + 1)]
    simp

/-- The block addresses are strictly ascending. -/
theorem block_addrs_ascending (cfg : Config) (n : Nat) (hbs : 0 < cfg.NVM_BLOCK_SIZE) :
    (block_addrs cfg n).Pairwise (fun a b => a < b) := by
  unfold block_addrs
  refine List.Pairwise.map (block_addr cfg) ?_ (List.pairwise_lt_range n)
  intro a b hab
  unfold block_addr
  have := Nat.mul_lt_mul_of_pos_right hab hbs
  omega

theorem block_addrs_getLast (cfg : Config) (n : Nat) (hn : 0 < n) :
    (block_addrs cfg n).getLast? = some (block_addr cfg (n - 1)) := by
  obtain ⟨k, rfl⟩ : ∃ k, n = k + 1 := ⟨n - 1, by omega⟩
  unfold block_addrs
  rw [List.range_succ]
  simp

/-- Any number of executions in a row, as long as the counter does not
wrap: the list is the one a single execution builds, the counter has grown
by the block count each time. -/
theorem repeat_Built (cfg : Config) (n fuel : Nat)
    (hne : ∀ fl : free_list, fl.head ≠ 0 → fl.tail ≠ 0 → fl.count ≠ 0 →
      cfg.FREELIST_EMPTY fl = false)
    (hbase : cfg.NVM_BASE ≠ 0) (hwrap : cfg.NVM_BASE + cfg.NVM_SIZE < word_mod cfg)
    (hn : 0 < n) (hbs : 0 < cfg.NVM_BLOCK_SIZE) (hsize : cfg.NVM_SIZE = n * cfg.NVM_BLOCK_SIZE)
    (hfuel : n < fuel) :
    ∀ k (s : free_list × Mem), (cfg.FREELIST_EMPTY s.1 = false → s.1.head = cfg.NVM_BASE) →
      s.1.count + (k + 1) * n < cfg.count_mod →
      ∃ s1, nvm_free_list_init_repeat cfg fuel (k + 1) s = some s1 ∧
        Built cfg cfg.NVM_BASE (s.1.count + k * n) n s1 := by
  intro k
  induction k with
  | zero =>
    intro s hs hcnt
    obtain ⟨s1, hrun, hB⟩ := nvm_free_list_init_Built cfg n fuel s hne
      (fun h => by rw [hs h]; exact hbase) hbase hwrap hn hbs hsize (by omega) hfuel
    refine ⟨s1, ?_, ?_⟩
    · simp [nvm_free_list_init_repeat, hrun]
    · have hh : (if cfg.FREELIST_EMPTY s.1 = false then s.1.head else cfg.NVM_BASE) =
          cfg.NVM_BASE := by
        split
        · next h => exact hs h
        · rfl
      rw [hh] at hB
      simpa using hB
  | succ k ih =>
    intro s hs hcnt
    have hexp : (k + 1 + 1) * n = (k + 1) * n + n := Nat.succ_mul (k + 1) n
    obtain ⟨s1, hrun, hB⟩ := nvm_free_list_init_Built cfg n fuel s hne
      (fun h => by rw [hs h]; exact hbase) hbase hwrap hn hbs hsize (by omega) hfuel
    obtain ⟨hd, _, hc, _⟩ := hB
    have hh : s1.1.head = cfg.NVM_BASE := by
      rw [hd]
      split
      · next h => exact hs h
      · rfl
    obtain ⟨s2, hrun2, hB2⟩ := ih s1 (fun _ => hh) (by rw [hc]; omega)
    refine ⟨s2, ?_, ?_⟩
    · rw [nvm_free_list_init_repeat, hrun]
      exact hrun2
    · have : s1.1.count + k * n = s.1.count + (k + 1) * n := by
        rw [hc, Nat.succ_mul]; omega
      rw [this] at hB2
      exact hB2

/-! ## The counter, wrap included -/

theorem body_count (cfg : Config) (now : Nat) (s : free_list × Mem) :
    (nvm_free_list_init_body cfg now s).1.count = (s.1.count + 1) % cfg.count_mod := by
  unfold nvm_free_list_init_body
  split <;> rfl

/-- From block `i` on, whatever `FREELIST_EMPTY` answers: the loop stops at
the end of the region and has incremented the counter once per block. -/
theorem loop_count (cfg : Config) (n : Nat) (hbs : 0 < cfg.NVM_BLOCK_SIZE)
    (hwrap : block_addr cfg n < word_mod cfg) (hM : 0 < cfg.count_mod) :
    ∀ k i fuel (s : free_list × Mem), i + k = n → k < fuel → s.1.count < cfg.count_mod →
      ∃ s1, nvm_free_list_init_loop cfg fuel (block_addr cfg i) (block_addr cfg n) s = some s1 ∧
        s1.1.count = (s.1.count + k) % cfg.count_mod := by
  intro k
  induction k with
  | zero =>
    intro i fuel s hik hf hs
    obtain ⟨f, rfl⟩ : ∃ f, fuel = f + 1 := ⟨fuel - 1, by omega⟩
    have : i = n := by omega
    subst this
    exact ⟨s, by simp [nvm_free_list_init_loop], by simp [Nat.mod_eq_of_lt hs]⟩
  | succ k ih =>
    intro i fuel s hik hf _
    obtain ⟨f, rfl⟩ : ∃ f, fuel = f + 1 := ⟨fuel - 1, by omega⟩
    have hle : block_addr cfg (i + 1) ≤ block_addr cfg n := block_addr_le cfg (by omega)
    have hs := block_addr_succ cfg i
    have hlt : block_addr cfg i < block_addr cfg n := by omega
    have hnext : (block_addr cfg i + cfg.NVM_BLOCK_SIZE) % word_mod cfg =
        block_addr cfg (i + 1) := by
      rw [← hs]; exact Nat.mod_eq_of_lt (by omega)
    obtain ⟨s1, hrun, hc⟩ := ih (i + 1) f (nvm_free_list_init_body cfg (block_addr cfg i) s)
      (by omega) (by omega) (by rw [body_count]; exact Nat.mod_lt _ hM)
    refine ⟨s1, ?_, ?_⟩
    · rw [nvm_free_list_init_loop, if_pos hlt, hnext, hrun]
    · rw [hc, body_count, Nat.mod_add_mod]
      congr 1
      omega

/-- One execution increments the counter by the block count, modulo the
number of values of the counter. -/
theorem nvm_free_list_init_count (cfg : Config) (n fuel : Nat) (s : free_list × Mem)
    (hwrap : cfg.NVM_BASE + cfg.NVM_SIZE < word_mod cfg) (hbs : 0 < cfg.NVM_BLOCK_SIZE)
    (hsize : cfg.NVM_SIZE = n * cfg.NVM_BLOCK_SIZE) (hM : 0 < cfg.count_mod)
    (hs : s.1.count < cfg.count_mod) (hfuel : n < fuel) :
    ∃ fl m, nvm_free_list_init cfg fuel s = some (1, fl, m) ∧
      fl.count = (s.1.count + n) % cfg.count_mod := by
  have hend : cfg.NVM_BASE + cfg.NVM_SIZE = block_addr cfg n := by
    unfold block_addr; rw [hsize]
  have hb : cfg.NVM_BASE % word_mod cfg = block_addr cfg 0 := by
    rw [block_addr_zero]; exact Nat.mod_eq_of_lt (by omega)
  have he : (block_addr cfg 0 + cfg.NVM_SIZE) % word_mod cfg = block_addr cfg n := by
    rw [block_addr_zero, ← hend]; exact Nat.mod_eq_of_lt hwrap
  obtain ⟨s1, hrun, hc⟩ := loop_count cfg n hbs (by omega) hM n 0 fuel s (by omega) hfuel hs
  refine ⟨s1.1, s1.2, ?_, hc⟩
  unfold nvm_free_list_init
  simp only [hb, he, hrun]
  rfl

/-- Any number of executions in a row increment the counter by the block
count each, modulo the number of values of the counter. -/
theorem nvm_free_list_init_repeat_count (cfg : Config) (n fuel : Nat)
    (hwrap : cfg.NVM_BASE + cfg.NVM_SIZE < word_mod cfg) (hbs : 0 < cfg.NVM_BLOCK_SIZE)
    (hsize : cfg.NVM_SIZE = n * cfg.NVM_BLOCK_SIZE) (hM : 0 < cfg.count_mod)
    (hfuel : n < fuel) :
    ∀ k (s : free_list × Mem), s.1.count < cfg.count_mod →
      ∃ fl m, nvm_free_list_init_repeat cfg fuel k s = some (fl, m) ∧
        fl.count = (s.1.count + k * n) % cfg.count_mod := by
  intro k
  induction k with
  | zero =>
    intro s hs
    exact ⟨s.1, s.2, rfl, by simp [Nat.mod_eq_of_lt hs]⟩
  | succ k ih =>
    intro s hs
    obtain ⟨fl1, m1, hrun, hc⟩ :=
      nvm_free_list_init_count cfg n fuel s hwrap hbs hsize hM hs hfuel
    obtain ⟨fl, m, hrun2, hc2⟩ := ih (fl1, m1) (by rw [hc]; exact Nat.mod_lt _ hM)
    refine ⟨fl, m, ?_, ?_⟩
    · rw [nvm_free_list_init_repeat, hrun]
      exact hrun2
    · rw [hc2, hc, Nat.mod_add_mod, Nat.succ_mul]
      congr 1
      omega

/-! ## The free list after `nvm_free_list_init` -/

/-- C1: on the empty descriptor, for a region with non-zero base that does not
wrap the machine word, whose size is a positive multiple of the block size
and whose block count the counter can hold, `nvm_free_list_init` terminates
(any iteration budget above `NVM_SIZE / NVM_BLOCK_SIZE` suffices), returns
1, and leaves `count = NVM_SIZE / NVM_BLOCK_SIZE`, `head = NVM_BASE` and
`tail = NVM_BASE + (count - 1) * NVM_BLOCK_SIZE`. The test `FREELIST_EMPTY`
is any test that holds of the zeroed descriptor and fails on a descriptor
with non-zero head, tail and count. -/
theorem nvm_free_list_init_descriptor (cfg : Config) (m0 : Mem) (fuel : Nat)
    (hempty : cfg.FREELIST_EMPTY free_list_zero = true)
    (hne : ∀ fl : free_list, fl.head ≠ 0 → fl.tail ≠ 0 → fl.count ≠ 0 →
      cfg.FREELIST_EMPTY fl = false)
    (hbase : cfg.NVM_BASE ≠ 0) (hwrap : cfg.NVM_BASE + cfg.NVM_SIZE < word_mod cfg)
    (hpos : 0 < cfg.NVM_SIZE) (hdvd : cfg.NVM_BLOCK_SIZE ∣ cfg.NVM_SIZE)
    (hcount : cfg.NVM_SIZE / cfg.NVM_BLOCK_SIZE < cfg.count_mod)
    (hfuel : cfg.NVM_SIZE / cfg.NVM_BLOCK_SIZE < fuel) :
    ∃ fl m, nvm_free_list_init cfg fuel (free_list_zero, m0) = some (1, fl, m) ∧
      fl.count = cfg.NVM_SIZE / cfg.NVM_BLOCK_SIZE ∧
      fl.head = cfg.NVM_BASE ∧
      fl.tail = cfg.NVM_BASE + (fl.count - 1) * cfg.NVM_BLOCK_SIZE := by
  obtain ⟨hn, hbs, hsize⟩ := region_blocks cfg hpos hdvd
  obtain ⟨s1, hrun, hd, ht, hc, _⟩ := nvm_free_list_init_Built cfg _ fuel (free_list_zero, m0)
    hne (fun h => by simp [hempty] at h) hbase hwrap hn hbs hsize
    (by simpa [free_list_zero] using hcount) hfuel
  refine ⟨s1.1, s1.2, hrun, ?_, ?_, ?_⟩
  · rw [hc]; simp [free_list_zero]
  · rw [hd]; simp [hempty]
  · rw [ht, hc]; simp [free_list_zero, block_addr]

/-- The end-to-end scenario of C1: base `0x80000000`, size `0x4000`, block
size `0x1000` give count 4, head `0x80000000`, tail `0x80003000`. -/
theorem nvm_free_list_init_descriptor_witness :
    ∃ fl m, nvm_free_list_init cfg0 5 (free_list_zero, fun _ => 0) = some (1, fl, m) ∧
      fl.count = 4 ∧ fl.head = 0x80000000 ∧ fl.tail = 0x80003000 := by
  obtain ⟨fl, m, hrun, hc, hh, ht⟩ := nvm_free_list_init_descriptor cfg0 (fun _ => 0) 5
    (by decide) (by intro fl h1 _ h3; simp [cfg0, h1, h3]) (by decide) (by decide)
    (by decide) (by decide) (by decide) (by decide)
  refine ⟨fl, m, hrun, ?_, ?_, ?_⟩
  · rw [hc]; decide
  · rw [hh]; rfl
  · rw [ht, hc]; decide

/-- C2: under the conditions of C1 (non-zero base, no wrap of the machine
word, a block count the counter can hold), with a block large enough to hold
a machine word, following the next-pointer in the first word of each block
from `head` visits exactly `NVM_BASE`, `NVM_BASE + NVM_BLOCK_SIZE`, ...,
`NVM_BASE + NVM_SIZE - NVM_BLOCK_SIZE`, in strictly ascending order (hence
each once), ends at `tail`, and the next-pointer of `tail` is 0. -/
theorem nvm_free_list_init_walk (cfg : Config) (m0 : Mem) (fuel : Nat)
    (hempty : cfg.FREELIST_EMPTY free_list_zero = true)
    (hne : ∀ fl : free_list, fl.head ≠ 0 → fl.tail ≠ 0 → fl.count ≠ 0 →
      cfg.FREELIST_EMPTY fl = false)
    (hword : cfg.word_bytes ≤ cfg.NVM_BLOCK_SIZE)
    (hbase : cfg.NVM_BASE ≠ 0) (hwrap : cfg.NVM_BASE + cfg.NVM_SIZE < word_mod cfg)
    (hpos : 0 < cfg.NVM_SIZE) (hdvd : cfg.NVM_BLOCK_SIZE ∣ cfg.NVM_SIZE)
    (hcount : cfg.NVM_SIZE / cfg.NVM_BLOCK_SIZE < cfg.count_mod)
    (hfuel : cfg.NVM_SIZE / cfg.NVM_BLOCK_SIZE < fuel) :
    ∃ fl m visited, nvm_free_list_init cfg fuel (free_list_zero, m0) = some (1, fl, m) ∧
      walk cfg m fuel fl.head = some visited ∧
      visited = (List.range (cfg.NVM_SIZE / cfg.NVM_BLOCK_SIZE)).map
        (fun i => cfg.NVM_BASE + i * cfg.NVM_BLOCK_SIZE) ∧
      visited.Pairwise (fun a b => a < b) ∧
      visited.getLast? = some fl.tail ∧
      fl.tail = cfg.NVM_BASE + cfg.NVM_SIZE - cfg.NVM_BLOCK_SIZE ∧
      load_word cfg m fl.tail = 0 := by
  obtain ⟨hn, hbs, hsize⟩ := region_blocks cfg hpos hdvd
  obtain ⟨s1, hrun, hd, ht, hc, hm⟩ := nvm_free_list_init_Built cfg _ fuel
    (free_list_zero, m0) hne (fun h => by simp [hempty] at h) hbase hwrap hn hbs hsize
    (by simpa [free_list_zero] using hcount) hfuel
  obtain ⟨hlinks, hlast⟩ := hm hword
  have hhead : s1.1.head = block_addr cfg 0 := by
    rw [hd, block_addr_zero]; simp [hempty]
  have hw := walk_blocks cfg s1.2 _ hbase hlinks hlast
    (cfg.NVM_SIZE / cfg.NVM_BLOCK_SIZE - 1) 0 fuel (by omega) (by omega)
  have hk : cfg.NVM_SIZE / cfg.NVM_BLOCK_SIZE - 1 + 1 = cfg.NVM_SIZE / cfg.NVM_BLOCK_SIZE := by
    omega
  rw [hk, ← List.range_eq_range'] at hw
  refine ⟨s1.1, s1.2, block_addrs cfg (cfg.NVM_SIZE / cfg.NVM_BLOCK_SIZE), hrun, ?_, rfl,
    block_addrs_ascending cfg _ hbs, ?_, ?_, ?_⟩
  · rw [hhead]; exact hw
  · rw [ht]; exact block_addrs_getLast cfg _ hn
  · rw [ht]
    have hp := block_addr_succ cfg (cfg.NVM_SIZE / cfg.NVM_BLOCK_SIZE - 1)
    rw [hk] at hp
    have he : block_addr cfg (cfg.NVM_SIZE / cfg.NVM_BLOCK_SIZE) =
        cfg.NVM_BASE + cfg.NVM_SIZE := by
      unfold block_addr; rw [← hsize]
    omega
  · rw [ht]; exact hlast

/-- The scenario of the specification for C2: the four blocks of the region
at `0x80000000` are visited in order and the last link is 0. -/
theorem nvm_free_list_init_walk_witness :
    ∃ fl m, nvm_free_list_init cfg0 5 (free_list_zero, fun _ => 0xAA) = some (1, fl, m) ∧
      walk cfg0 m 5 fl.head = some [0x80000000, 0x80001000, 0x80002000, 0x80003000] ∧
      load_word cfg0 m fl.tail = 0 := by
  obtain ⟨fl, m, visited, hrun, hw, hv, _, _, _, hz⟩ :=
    nvm_free_list_init_walk cfg0 (fun _ => 0xAA) 5
      (by decide) (by intro fl h1 _ h3; simp [cfg0, h1, h3]) (by decide) (by decide)
      (by decide) (by decide) (by decide) (by decide) (by decide)
  refine ⟨fl, m, hrun, ?_, hz⟩
  rw [hw, hv]
  decide

/-- C10 as stated fails: with a 32-bit counter and the four-block region of
the end-to-end scenario, `k = 1073741824` (`2 ^ 30`) executions in a row
terminate with `count = 0`, not `k * 4 = 4294967296`. -/
theorem nvm_free_list_init_repeat_counterexample :
    ∃ flk mk,
      nvm_free_list_init_repeat cfg0 5 1073741824 (free_list_zero, fun _ => 0) =
        some (flk, mk) ∧
      flk.count = 0 ∧
      flk.count ≠ 1073741824 * (cfg0.NVM_SIZE / cfg0.NVM_BLOCK_SIZE) := by
  obtain ⟨flk, mk, hrun, hc⟩ := nvm_free_list_init_repeat_count cfg0 4 5 (by decide) (by decide)
    (by decide) (by decide) (by decide) 1073741824 (free_list_zero, fun _ => 0) (by decide)
  have h0 : flk.count = 0 := by rw [hc]; decide
  exact ⟨flk, mk, hrun, h0, by rw [h0]; decide⟩

/-- C10, amended: `k ≥ 1` executions of `nvm_free_list_init` in a row, from
the empty descriptor, with `k * (NVM_SIZE / NVM_BLOCK_SIZE)` below the number
of values of the counter: `head`, `tail` and the first word of every block
are what one execution leaves (`head = NVM_BASE`, each block links to the
next, the link of `tail` is 0), while
`count = k * (NVM_SIZE / NVM_BLOCK_SIZE)`. -/
theorem nvm_free_list_init_repeat_idempotent (cfg : Config) (m0 : Mem) (fuel k : Nat)
    (hempty : cfg.FREELIST_EMPTY free_list_zero = true)
    (hne : ∀ fl : free_list, fl.head ≠ 0 → fl.tail ≠ 0 → fl.count ≠ 0 →
      cfg.FREELIST_EMPTY fl = false)
    (hword : cfg.word_bytes ≤ cfg.NVM_BLOCK_SIZE)
    (hbase : cfg.NVM_BASE ≠ 0) (hwrap : cfg.NVM_BASE + cfg.NVM_SIZE < word_mod cfg)
    (hpos : 0 < cfg.NVM_SIZE) (hdvd : cfg.NVM_BLOCK_SIZE ∣ cfg.NVM_SIZE)
    (hk : 1 ≤ k) (hcount : k * (cfg.NVM_SIZE / cfg.NVM_BLOCK_SIZE) < cfg.count_mod)
    (hfuel : cfg.NVM_SIZE / cfg.NVM_BLOCK_SIZE < fuel) :
    ∃ fl1 m1 flk mk,
      nvm_free_list_init_repeat cfg fuel 1 (free_list_zero, m0) = some (fl1, m1) ∧
      nvm_free_list_init_repeat cfg fuel k (free_list_zero, m0) = some (flk, mk) ∧
      flk.head = fl1.head ∧ flk.tail = fl1.tail ∧
      (∀ i, i < cfg.NVM_SIZE / cfg.NVM_BLOCK_SIZE →
        load_word cfg mk (cfg.NVM_BASE + i * cfg.NVM_BLOCK_SIZE) =
          load_word cfg m1 (cfg.NVM_BASE + i * cfg.NVM_BLOCK_SIZE)) ∧
      flk.head = cfg.NVM_BASE ∧
      (∀ i, i + 1 < cfg.NVM_SIZE / cfg.NVM_BLOCK_SIZE →
        load_word cfg mk (cfg.NVM_BASE + i * cfg.NVM_BLOCK_SIZE) =
          cfg.NVM_BASE + (i + 1) * cfg.NVM_BLOCK_SIZE) ∧
      load_word cfg mk flk.tail = 0 ∧
      flk.count = k * (cfg.NVM_SIZE / cfg.NVM_BLOCK_SIZE) := by
  obtain ⟨hn, hbs, hsize⟩ := region_blocks cfg hpos hdvd
  have hstart : cfg.FREELIST_EMPTY (free_list_zero, m0).1 = false →
      (free_list_zero, m0).1.head = cfg.NVM_BASE := fun h => by simp [hempty] at h
  obtain ⟨j, rfl⟩ : ∃ j, k = j + 1 := ⟨k - 1, by omega⟩
  have hone : cfg.NVM_SIZE / cfg.NVM_BLOCK_SIZE ≤
      (j + 1) * (cfg.NVM_SIZE / cfg.NVM_BLOCK_SIZE) := Nat.le_mul_of_pos_left _ (by omega)
  obtain ⟨s1, hrun1, hd1, ht1, _, hm1⟩ :=
    repeat_Built cfg _ fuel hne hbase hwrap hn hbs hsize hfuel 0 (free_list_zero, m0) hstart
      (by simp only [free_list_zero]; omega)
  obtain ⟨sk, hrunk, hdk, htk, hck, hmk⟩ :=
    repeat_Built cfg _ fuel hne hbase hwrap hn hbs hsize hfuel j (free_list_zero, m0) hstart
      (by simp only [free_list_zero]; omega)
  obtain ⟨hl1, hz1⟩ := hm1 hword
  obtain ⟨hlk, hzk⟩ := hmk hword
  refine ⟨s1.1, s1.2, sk.1, sk.2, hrun1, hrunk, by rw [hdk, hd1], by rw [htk, ht1], ?_, hdk,
    fun i hi => hlk i hi, by rw [htk]; exact hzk, ?_⟩
  · intro i hi
    change load_word cfg sk.2 (block_addr cfg i) = load_word cfg s1.2 (block_addr cfg i)
    by_cases hlast : i + 1 < cfg.NVM_SIZE / cfg.NVM_BLOCK_SIZE
    · rw [hlk i hlast, hl1 i hlast]
    · have : i = cfg.NVM_SIZE / cfg.NVM_BLOCK_SIZE - 1 := by omega
      rw [this, hzk, hz1]
  · rw [hck, Nat.succ_mul]; simp [free_list_zero]

/-- C10, amended, at the scenario of the specification, three executions:
the list is unchanged, the counter reads 12. -/
theorem nvm_free_list_init_repeat_idempotent_witness :
    ∃ flk mk, nvm_free_list_init_repeat cfg0 5 3 (free_list_zero, fun _ => 0) = some (flk, mk) ∧
      flk.head = 0x80000000 ∧ load_word cfg0 mk flk.tail = 0 ∧ flk.count = 12 := by
  obtain ⟨_, _, flk, mk, _, hrun, _, _, _, hh, _, hz, hc⟩ :=
    nvm_free_list_init_repeat_idempotent cfg0 (fun _ => 0) 5 3
      (by decide) (by intro fl h1 _ h3; simp [cfg0, h1, h3]) (by decide) (by decide)
      (by decide) (by decide) (by decide) (by decide) (by decide) (by decide)
  exact ⟨flk, mk, hrun, hh, hz, by rw [hc]; decide⟩

/-! ## The invariant of `sm_init` -/

@[simp] theorem smm_init_events (cfg : Config) (env : Env) :
    (smm_init cfg env).1 = [.pmp_region_init_atomic cfg.SMM_BASE cfg.SMM_SIZE .PMP_PRI_TOP 0] :=
  rfl

@[simp] theorem nvm_init_events (cfg : Config) (env : Env) :
    (nvm_init cfg env).1 = [.pmp_region_init_atomic cfg.NVM_BASE cfg.NVM_SIZE .PMP_PRI_NEXT 0] :=
  rfl

@[simp] theorem osm_init_events (cfg : Config) (env : Env) :
    (osm_init cfg env).1 = [.pmp_region_init_atomic 0 (word_mod cfg - 1) .PMP_PRI_BOTTOM 1] :=
  rfl

@[simp] theorem is_sync_ecall : Event.is_sync .sbi_ecall_register_extension = false := rfl

@[simp] theorem is_sync_registration (a b o : Nat) (p : pmp_priority) :
    Event.is_sync (.pmp_region_init_atomic a b p o) = false := rfl

@[simp] theorem is_sync_hang : Event.is_sync .sbi_hart_hang = false := rfl

@[simp] theorem is_sync_once : Event.is_sync .platform_init_global_once = false := rfl

@[simp] theorem is_sync_copy_key : Event.is_sync .sm_copy_key = false := rfl

@[simp] theorem is_sync_metadata : Event.is_sync .enclave_init_metadata = false := rfl

@[simp] theorem is_sync_store (v : Int) : Event.is_sync (.store_sm_init_done v) = false := rfl

@[simp] theorem is_sync_mb : Event.is_sync .mb = true := rfl

@[simp] theorem is_sync_load (v : Int) : Event.is_sync (.load_sm_init_done v) = true := rfl

@[simp] theorem is_sync_pmp_init : Event.is_sync .pmp_init = false := rfl

@[simp] theorem is_sync_pmp_set (r : Int) (q : pmp_perm) :
    Event.is_sync (.pmp_set_keystone r q) = false := rfl

@[simp] theorem is_sync_free_list : Event.is_sync .nvm_free_list_init = false := rfl

@[simp] theorem is_sync_platform : Event.is_sync .platform_init_global = false := rfl

/-- A statement of the cold-boot hart keeps the invariant of the globals and
its own. -/
theorem sm_init_step_cold (cfg : Config) (env : Env) (hartid : Nat) (sh : Shared) (c : Core)
    (hC : ColdInv cfg env sh c.pc) (hH : HartInv cfg env sh true c) :
    ColdInv cfg env (sm_init_step cfg env hartid sh c).1 (sm_init_step cfg env hartid sh c).2.pc ∧
      HartInv cfg env (sm_init_step cfg env hartid sh c).1 true (sm_init_step cfg env hartid sh c).2 := by
  obtain ⟨cb, pc, now, e, tr⟩ := c
  obtain ⟨h1, h2, h3, h4, h5, h6, h7, h8, h9, h10, h11, h12⟩ := hC
  obtain ⟨a, ev, pl, fl⟩ := hH
  simp only at a ev pl fl h1 h2 h3 h4 h5 h6 h7 h8 h9 h10 h11 h12
  subst a
  cases pc <;> simp only [sm_init_step, if_true] <;> (try split) <;>
    simp [PC.stage, PC.past_wait, PC.in_wait, PC.halted] at h1 h2 h3 h4 h5 h6 h7 h8 h9 h10 h11 h12 pl fl <;>
    refine ⟨⟨?_, ?_, ?_, ?_, ?_, ?_, ?_, ?_, ?_, ?_, ?_, ?_⟩, ⟨?_, ?_, ?_, ?_⟩⟩ <;>
    (try simp [*, PC.stage, cold_events, post_events, PC.past_wait, PC.in_wait, PC.halted,
      permission_calls, sm_copy_key]) <;> (try omega)

/-- Once the flag is set, the globals hold the handles of the three
registrations. -/
theorem ColdInv.published {cfg : Config} {env : Env} {sh : Shared} {pc : PC}
    (hC : ColdInv cfg env sh pc) (hd : sh.sm_init_done = 1) :
    12 ≤ pc.stage ∧ sh.sm_region_id = (smm_init cfg env).2 ∧
      sh.nvm_region_id = (nvm_init cfg env).2 ∧ sh.os_region_id = (osm_init cfg env).2 := by
  have h12 : 12 ≤ pc.stage := by
    by_contra h
    have := hC.done
    rw [if_neg h, hd] at this
    exact absurd this (by decide)
  exact ⟨h12, hC.sm_id (by omega), hC.nvm_id (by omega), hC.os_id (by omega)⟩

/-- A statement of another hart keeps its own invariant, and leaves the
flag and the three handles as they are. -/
theorem sm_init_step_other (cfg : Config) (env : Env) (hartid : Nat) (sh : Shared) (c : Core)
    (pc0 : PC) (hC : ColdInv cfg env sh pc0) (hH : HartInv cfg env sh false c) :
    HartInv cfg env (sm_init_step cfg env hartid sh c).1 false (sm_init_step cfg env hartid sh c).2 ∧
      (sm_init_step cfg env hartid sh c).1.sm_init_done = sh.sm_init_done ∧
      (sm_init_step cfg env hartid sh c).1.sm_region_id = sh.sm_region_id ∧
      (sm_init_step cfg env hartid sh c).1.nvm_region_id = sh.nvm_region_id ∧
      (sm_init_step cfg env hartid sh c).1.os_region_id = sh.os_region_id := by
  obtain ⟨cb, pc, now, e, tr⟩ := c
  have hp := hC.published
  have hb : sh.sm_init_done = 0 ∨ sh.sm_init_done = 1 := by
    have := hC.done
    split at this
    · exact Or.inr this
    · exact Or.inl this
  obtain ⟨a, ev, pl, fl⟩ := hH
  simp only at a ev pl fl
  subst a
  cases pc <;> simp only [sm_init_step, if_true] <;> (try split) <;>
    simp [PC.stage, PC.past_wait, PC.in_wait, PC.halted] at pl fl <;>
    refine ⟨⟨?_, ?_, ?_, ?_⟩, ?_, ?_, ?_, ?_⟩ <;>
    (try simp [*, PC.stage, cold_events, post_events, PC.past_wait, PC.in_wait, PC.halted,
      permission_calls]) <;> (try omega)
  all_goals simp_all


/-- No statement takes the flag back. -/
theorem sm_init_step_flag (cfg : Config) (env : Env) (hartid : Nat) (sh : Shared) (c : Core)
    (hd : sh.sm_init_done = 1) : (sm_init_step cfg env hartid sh c).1.sm_init_done = 1 := by
  obtain ⟨cb, pc, now, e, tr⟩ := c
  cases pc <;> simp only [sm_init_step] <;> (try split) <;> simp [hd, sm_copy_key]

/-- The invariant depends on the flag and the three handles only. -/
theorem ColdInv.congr {cfg : Config} {env : Env} {sh sh1 : Shared} {pc : PC}
    (hC : ColdInv cfg env sh pc) (h1 : sh1.sm_init_done = sh.sm_init_done)
    (h2 : sh1.sm_region_id = sh.sm_region_id) (h3 : sh1.nvm_region_id = sh.nvm_region_id)
    (h4 : sh1.os_region_id = sh.os_region_id) : ColdInv cfg env sh1 pc :=
  { done := by rw [h1]; exact hC.done
    sm_id := fun h => by rw [h2]; exact hC.sm_id h
    sm_ok := hC.sm_ok
    sm_bad := hC.sm_bad
    nvm_id := fun h => by rw [h3]; exact hC.nvm_id h
    nvm_ok := hC.nvm_ok
    nvm_bad := hC.nvm_bad
    os_id := fun h => by rw [h4]; exact hC.os_id h
    os_ok := hC.os_ok
    os_bad := hC.os_bad
    once_ok := hC.once_ok
    once_bad := hC.once_bad }

/-- A hart that does not move keeps its invariant when the flag stays set. -/
theorem HartInv.frame {cfg : Config} {env : Env} {sh sh1 : Shared} {cold : Bool} {c : Core}
    (hH : HartInv cfg env sh cold c) (hd : sh.sm_init_done = 1 → sh1.sm_init_done = 1) :
    HartInv cfg env sh1 cold c :=
  { arg := hH.arg
    events := hH.events
    place := hH.place
    flag := fun h => hd (hH.flag h) }

/-- Every step of the machine keeps the invariant. -/
theorem inv_step {cfg : Config} {env : Env} {c0 : Nat} {s : Sys} (hI : Inv cfg env c0 s)
    (j : Nat) : Inv cfg env c0 (Sys.step cfg env s j) := by
  by_cases hj : j = c0
  · subst hj
    have hH := hI.hart j
    simp only [decide_True] at hH
    obtain ⟨hC1, hH1⟩ := sm_init_step_cold cfg env j s.sh (s.harts j) hI.cold hH
    refine ⟨by simpa [Sys.step] using hC1, fun i => ?_⟩
    by_cases hi : i = j
    · subst hi
      simpa [Sys.step] using hH1
    · have := (hI.hart i).frame (sm_init_step_flag cfg env j s.sh (s.harts j))
      simpa [Sys.step, Function.update_noteq hi] using this
  · have hH := hI.hart j
    simp only [hj, decide_False] at hH
    obtain ⟨hH1, e1, e2, e3, e4⟩ :=
      sm_init_step_other cfg env j s.sh (s.harts j) (s.harts c0).pc hI.cold hH
    have hc : c0 ≠ j := fun h => hj h.symm
    refine ⟨?_, fun i => ?_⟩
    · have := hI.cold.congr e1 e2 e3 e4
      simpa [Sys.step, Function.update_noteq hc] using this
    · by_cases hi : i = j
      · subst hi
        simpa [Sys.step, hj] using hH1
      · have := (hI.hart i).frame (sm_init_step_flag cfg env j s.sh (s.harts j))
        simpa [Sys.step, Function.update_noteq hi] using this

/-- The machine at boot satisfies the invariant. -/
theorem inv_boot (cfg : Config) (env : Env) (m0 : Mem) (c0 : Nat) :
    Inv cfg env c0 (boot cfg m0 c0) := by
  refine ⟨⟨?_, ?_, ?_, ?_, ?_, ?_, ?_, ?_, ?_, ?_, ?_, ?_⟩, fun i => ⟨?_, ?_, ?_, ?_⟩⟩ <;>
    simp [SM.boot, Shared.reset, PC.stage, cold_events, post_events, PC.in_wait, PC.past_wait,
      PC.halted]

/-- Every schedule keeps the invariant. -/
theorem inv_run {cfg : Config} {env : Env} {c0 : Nat} (sched : List Nat) :
    ∀ {s : Sys}, Inv cfg env c0 s → Inv cfg env c0 (run cfg env s sched) := by
  induction sched with
  | nil => intro s h; exact h
  | cons j rest ih => intro s h; exact ih (inv_step h j)

/-- The invariant holds in every state the booted machine reaches. -/
theorem inv_reach (cfg : Config) (env : Env) (m0 : Mem) (c0 : Nat) (sched : List Nat) :
    Inv cfg env c0 (run cfg env (boot cfg m0 c0) sched) :=
  inv_run sched (inv_boot cfg env m0 c0)


/-! ## Progress of the cold-boot hart -/

/-- A hart inside `sbi_hart_hang` stays there. -/
theorem halted_run (cfg : Config) (env : Env) (i : Nat) (sched : List Nat) :
    ∀ s : Sys, (s.harts i).pc.halted = true →
      ((run cfg env s sched).harts i).pc = (s.harts i).pc := by
  induction sched with
  | nil => intro s _; rfl
  | cons j rest ih =>
    intro s h
    have hstep : ((Sys.step cfg env s j).harts i).pc = (s.harts i).pc := by
      by_cases hj : i = j
      · subst hj
        simp only [Sys.step, Function.update_same]
        generalize s.harts i = c at h ⊢
        obtain ⟨cb, pc, now, e, tr⟩ := c
        cases pc <;> first | rfl | simp [PC.halted] at h
      · simp [Sys.step, Function.update_noteq hj]
    have := ih (Sys.step cfg env s j) (by rw [hstep]; exact h)
    rw [← hstep]
    exact this

/-- Until it is behind the permission calls, every statement of the
cold-boot hart either takes it one stage further or ends in
`sbi_hart_hang`. -/
theorem sm_init_step_progress (cfg : Config) (env : Env) (hartid : Nat) (sh : Shared) (c : Core)
    (hC : ColdInv cfg env sh c.pc) :
    (sm_init_step cfg env hartid sh c).2.pc.halted = true ∨
      min (c.pc.stage + 1) 18 ≤ (sm_init_step cfg env hartid sh c).2.pc.stage := by
  obtain ⟨cb, pc, now, e, tr⟩ := c
  have h1 := hC.done
  simp only at h1
  cases pc <;> simp only [sm_init_step] <;> (try split) <;>
    simp [PC.stage, PC.halted] at h1 ⊢
  all_goals omega

/-- After `n` statements of its own, the cold-boot hart is `n` stages
further, or behind the permission calls, or in `sbi_hart_hang`. -/
theorem run_progress (cfg : Config) (env : Env) (c0 : Nat) (sched : List Nat) :
    ∀ s : Sys, Inv cfg env c0 s →
      ((run cfg env s sched).harts c0).pc.halted = true ∨
        min ((s.harts c0).pc.stage + sched.count c0) 18 ≤
          ((run cfg env s sched).harts c0).pc.stage := by
  induction sched with
  | nil => intro s _; right; simp [run]
  | cons j rest ih =>
    intro s hI
    have hI1 := inv_step hI j
    have hrun : run cfg env s (j :: rest) = run cfg env (Sys.step cfg env s j) rest := rfl
    rw [hrun]
    by_cases hj : j = c0
    · subst hj
      have hp := sm_init_step_progress cfg env j s.sh (s.harts j) hI.cold
      have hpc : ((Sys.step cfg env s j).harts j).pc =
          (sm_init_step cfg env j s.sh (s.harts j)).2.pc := by
        simp [Sys.step]
      rw [← hpc] at hp
      rcases hp with hp | hp
      · left
        rw [halted_run cfg env j rest _ hp]
        exact hp
      · rcases ih _ hI1 with h | h
        · exact Or.inl h
        · right
          simp only [List.count_cons_self]
          omega
    · have hc : c0 ≠ j := fun h => hj h.symm
      have hpc : ((Sys.step cfg env s j).harts c0).pc = (s.harts c0).pc := by
        simp [Sys.step, Function.update_noteq hc]
      rcases ih _ hI1 with h | h
      · exact Or.inl h
      · right
        rw [hpc] at h
        rw [List.count_cons_of_ne hc]
        exact h

/-! ## Reading the events off the invariant -/

/-- Filtering the trace by a predicate that holds of no spin-wait event. -/
theorem HartInv.filter_events {cfg : Config} {env : Env} {sh : Shared} {cold : Bool}
    {c : Core} (hH : HartInv cfg env sh cold c) (p : Event → Bool)
    (hp : ∀ e, p e = true → e.is_sync = false) :
    c.trace.filter p =
      ((if cold then cold_events cfg env c.pc else []) ++ post_events cfg env c.pc).filter p := by
  rw [← hH.events, List.filter_filter]
  apply List.filter_congr
  intro e _
  cases h : p e
  · rfl
  · simp [hp e h]

theorem registration_not_sync (e : Event) (h : e.is_registration = true) :
    e.is_sync = false := by
  cases e <;> first | rfl | cases h

theorem pmp_not_sync (e : Event) (h : e.is_pmp = true) : e.is_sync = false := by
  cases e <;> first | rfl | cases h

theorem one_time_not_sync (e : Event) (h : e.is_one_time = true) : e.is_sync = false := by
  cases e <;> first | rfl | cases h

theorem after_registration_not_sync (e : Event) (h : e.is_after_registration = true) :
    e.is_sync = false := by
  cases e <;> first | rfl | cases h

theorem cold_events_registration (cfg : Config) (env : Env) (pc : PC) :
    (cold_events cfg env pc).filter Event.is_registration =
      (if 3 ≤ pc.stage then (smm_init cfg env).1 else []) ++
      (if 5 ≤ pc.stage then (nvm_init cfg env).1 else []) ++
      (if 7 ≤ pc.stage then (osm_init cfg env).1 else []) := by
  cases pc <;> rfl

theorem post_events_registration (cfg : Config) (env : Env) (pc : PC) :
    (post_events cfg env pc).filter Event.is_registration = [] := by
  cases pc <;> rfl

theorem cold_events_pmp (cfg : Config) (env : Env) (pc : PC) :
    (cold_events cfg env pc).filter Event.is_pmp = [] := by
  cases pc <;> rfl

theorem post_events_pmp (cfg : Config) (env : Env) (pc : PC) :
    (post_events cfg env pc).filter Event.is_pmp =
      (permission_calls cfg env).take (pc.stage - 14) := by
  cases pc <;> rfl

theorem cold_events_one_time (cfg : Config) (env : Env) (pc : PC) (h : 12 ≤ pc.stage) :
    (cold_events cfg env pc).filter Event.is_one_time =
      (smm_init cfg env).1 ++ (nvm_init cfg env).1 ++ (osm_init cfg env).1 ++
        [.platform_init_global_once, .sm_copy_key, .store_sm_init_done 1] := by
  cases pc <;> first | rfl | exact absurd h (by decide)

theorem post_events_one_time (cfg : Config) (env : Env) (pc : PC) :
    (post_events cfg env pc).filter Event.is_one_time = [] := by
  cases pc <;> rfl

theorem cold_events_after_registration (cfg : Config) (env : Env) (pc : PC)
    (h : pc.stage ≤ 7) :
    (cold_events cfg env pc).filter Event.is_after_registration = [] := by
  cases pc <;> first | rfl | exact absurd h (by decide)

theorem post_events_after_registration (cfg : Config) (env : Env) (pc : PC) :
    (post_events cfg env pc).filter Event.is_after_registration = [] := by
  cases pc <;> rfl


/-! ## The free-list loop inside `sm_init` -/

/-- The loop of `nvm_free_list_init` inlined in `sm_init_step` computes what
`nvm_free_list_init_loop` computes: a hart that stands at the loop and is
left alone leaves it with the same descriptor and memory. -/
theorem sm_init_step_free_list_loop (cfg : Config) (env : Env) (i : Nat) :
    ∀ (fuel : Nat) (s : Sys) (r : free_list × Mem), (s.harts i).pc = .freelist_loop →
      nvm_free_list_init_loop cfg fuel (s.harts i).now (s.harts i).end_
        (s.sh.free_list_nvm, s.sh.mem) = some r →
      ∃ n, n ≤ fuel ∧
        ((run cfg env s (List.replicate n i)).harts i).pc = .platform_global ∧
        (run cfg env s (List.replicate n i)).sh.free_list_nvm = r.1 ∧
        (run cfg env s (List.replicate n i)).sh.mem = r.2 := by
  intro fuel
  induction fuel with
  | zero => intro s r _ h; simp [nvm_free_list_init_loop] at h
  | succ fuel ih =>
    intro s r hpc h
    have hc : s.harts i = { s.harts i with pc := .freelist_loop } := by
      rw [← hpc]
    by_cases hlt : (s.harts i).now < (s.harts i).end_
    · rw [nvm_free_list_init_loop, if_pos hlt] at h
      have hstep : Sys.step cfg env s i =
          { sh := { s.sh with
                    free_list_nvm := (nvm_free_list_init_body cfg (s.harts i).now
                      (s.sh.free_list_nvm, s.sh.mem)).1
                    mem := (nvm_free_list_init_body cfg (s.harts i).now
                      (s.sh.free_list_nvm, s.sh.mem)).2 }
            harts := Function.update s.harts i
              { s.harts i with now := ((s.harts i).now + cfg.NVM_BLOCK_SIZE) % word_mod cfg } } := by
        unfold Sys.step
        rw [hc]
        simp [sm_init_step, hlt]
      obtain ⟨n, hn, h1, h2, h3⟩ := ih (Sys.step cfg env s i) r
        (by rw [hstep]; simp [hpc]) (by rw [hstep]; simpa using h)
      exact ⟨n + 1, by omega, h1, h2, h3⟩
    · rw [nvm_free_list_init_loop, if_neg hlt] at h
      have hr : r = (s.sh.free_list_nvm, s.sh.mem) := by
        simpa using h.symm
      have hstep : Sys.step cfg env s i =
          { sh := s.sh
            harts := Function.update s.harts i { s.harts i with pc := .platform_global } } := by
        unfold Sys.step
        rw [hc]
        simp [sm_init_step, hlt]
      refine ⟨1, by omega, ?_, ?_, ?_⟩ <;>
        simp [run, hstep, hr]

/-! ## Claims about `sm_init` -/

theorem boot_stage (cfg : Config) (m0 : Mem) (c0 i : Nat) :
    ((boot cfg m0 c0).harts i).pc.stage = 0 := rfl

theorem stage_of_not_past_wait (pc : PC) (h : pc.past_wait = false) : pc.stage ≤ 13 := by
  cases pc <;> first | (simp [PC.stage]; done) | simp [PC.past_wait] at h

/-- A statement that issues a permission call is one behind the
spin-wait. -/
theorem sm_init_step_pmp (cfg : Config) (env : Env) (hartid : Nat) (sh : Shared) (c : Core)
    (h : (sm_init_step cfg env hartid sh c).2.trace.filter Event.is_pmp ≠
      c.trace.filter Event.is_pmp) : c.pc.past_wait = true := by
  obtain ⟨cb, pc, now, e, tr⟩ := c
  cases pc <;> first | rfl | (exfalso; revert h; simp only [sm_init_step]; (try split) <;>
    simp [List.filter_append, Event.is_pmp])

/-- C3: in every state the machine reaches, (a) if one of the three
registrations fails on the cold-boot hart `c0`: once that hart has executed 8
statements it sits in `sbi_hart_hang` at the check of the first failing
registration; no registration after the failing one has been attempted; no
hart has run the one-time platform hook, the key copy, the metadata
initialisation or the write of `sm_init_done`, nor any permission call;
`sm_init_done` is 0; and every other hart is in the spin-wait; (b) whatever
the registrations do, while `sm_init_done` is 0 a hart that runs
`sm_init(false)` is in the spin-wait (or about to enter it) and has issued no
permission call. -/
theorem sm_init_registration_failure (cfg : Config) (env : Env) (m0 : Mem) (c0 : Nat)
    (sched : List Nat) :
    ((smm_init cfg env).2 < 0 ∨ (nvm_init cfg env).2 < 0 ∨ (osm_init cfg env).2 < 0 →
      (8 ≤ sched.count c0 →
        ((run cfg env (boot cfg m0 c0) sched).harts c0).pc =
          if (smm_init cfg env).2 < 0 then PC.hang_smm
          else if (nvm_init cfg env).2 < 0 then PC.hang_nvm else PC.hang_osm) ∧
      ((smm_init cfg env).2 < 0 →
        ((run cfg env (boot cfg m0 c0) sched).harts c0).trace.filter Event.is_registration <+:
          (smm_init cfg env).1) ∧
      ((nvm_init cfg env).2 < 0 →
        ((run cfg env (boot cfg m0 c0) sched).harts c0).trace.filter Event.is_registration <+:
          (smm_init cfg env).1 ++ (nvm_init cfg env).1) ∧
      (∀ i,
        ((run cfg env (boot cfg m0 c0) sched).harts i).trace.filter
            Event.is_after_registration = [] ∧
        ((run cfg env (boot cfg m0 c0) sched).harts i).trace.filter Event.is_pmp = []) ∧
      (run cfg env (boot cfg m0 c0) sched).sh.sm_init_done = 0 ∧
      (∀ i, i ≠ c0 → ((run cfg env (boot cfg m0 c0) sched).harts i).pc.in_wait = true)) ∧
    ((run cfg env (boot cfg m0 c0) sched).sh.sm_init_done = 0 →
      ∀ i, i ≠ c0 →
        ((run cfg env (boot cfg m0 c0) sched).harts i).pc.in_wait = true ∧
        ((run cfg env (boot cfg m0 c0) sched).harts i).trace.filter Event.is_pmp = []) := by
  have hI := inv_reach cfg env m0 c0 sched
  have hP := run_progress cfg env c0 sched _ (inv_boot cfg env m0 c0)
  rw [boot_stage] at hP
  generalize run cfg env (boot cfg m0 c0) sched = s at hI hP ⊢
  have hC := hI.cold
  have hH := hI.hart c0
  simp only [decide_True] at hH
  have hwait : s.sh.sm_init_done = 0 → ∀ i, (s.harts i).pc.past_wait = false := by
    intro hdone i
    cases h : (s.harts i).pc.past_wait
    · rfl
    · have := (hI.hart i).flag h
      omega
  have hin : s.sh.sm_init_done = 0 → ∀ i, i ≠ c0 → (s.harts i).pc.in_wait = true := by
    intro hdone i hi
    rcases (hI.hart i).place (by simp [hi]) with h | h
    · exact h
    · rw [hwait hdone i] at h
      cases h
  have hpmp : s.sh.sm_init_done = 0 → ∀ i, (s.harts i).trace.filter Event.is_pmp = [] := by
    intro hdone i
    have hs := stage_of_not_past_wait _ (hwait hdone i)
    have ht : (s.harts i).pc.stage - 14 = 0 := by omega
    rw [(hI.hart i).filter_events _ pmp_not_sync, List.filter_append, post_events_pmp, ht]
    split <;> simp [cold_events_pmp]
  refine ⟨fun hfail => ?_, fun hdone i hi => ⟨hin hdone i hi, hpmp hdone i⟩⟩
  have hst : (s.harts c0).pc.stage ≤ 7 := by
    by_contra h
    have h1 := hC.sm_ok (by omega)
    have h2 := hC.nvm_ok (by omega)
    have h3 := hC.os_ok (by omega)
    omega
  have hdone : s.sh.sm_init_done = 0 := by
    rw [hC.done, if_neg (by omega)]
  refine ⟨fun hsteps => ?_, fun hsmm => ?_, fun hnvm => ?_, fun i => ⟨?_, hpmp hdone i⟩, hdone,
    hin hdone⟩
  · have hhalt : (s.harts c0).pc.halted = true := by
      rcases hP with h | h
      · exact h
      · omega
    have b1 := hC.sm_bad
    have b2 := hC.nvm_bad
    have b3 := hC.os_bad
    have o1 := hC.sm_ok
    have o2 := hC.nvm_ok
    generalize (s.harts c0).pc = pc at hhalt hst b1 b2 b3 o1 o2
    cases pc <;> simp [PC.halted, PC.stage] at hhalt hst b1 b2 b3 o1 o2
    · simp [b1]
    · have : ¬ (smm_init cfg env).2 < 0 := by omega
      simp [this, b2]
    · have h1 : ¬ (smm_init cfg env).2 < 0 := by omega
      have h2 : ¬ (nvm_init cfg env).2 < 0 := by omega
      simp [h1, h2]
  · have h3 : (s.harts c0).pc.stage ≤ 3 := by
      by_contra h
      have := hC.sm_ok (by omega)
      omega
    have e5 : ¬ 5 ≤ (s.harts c0).pc.stage := by omega
    have e7 : ¬ 7 ≤ (s.harts c0).pc.stage := by omega
    rw [hH.filter_events _ registration_not_sync, if_pos rfl, List.filter_append,
      cold_events_registration, post_events_registration, if_neg e5, if_neg e7]
    split <;> simp
  · have h5 : (s.harts c0).pc.stage ≤ 5 := by
      by_contra h
      have := hC.nvm_ok (by omega)
      omega
    have e7 : ¬ 7 ≤ (s.harts c0).pc.stage := by omega
    rw [hH.filter_events _ registration_not_sync, if_pos rfl, List.filter_append,
      cold_events_registration, post_events_registration, if_neg e7]
    split <;> split <;> first | omega | simp
  · rw [(hI.hart i).filter_events _ after_registration_not_sync]
    simp only [List.filter_append, post_events_after_registration]
    by_cases hi : i = c0
    · subst hi
      simp [cold_events_after_registration cfg env _ hst]
    · simp [hi]

/-- C3 on a machine whose registration of the non-volatile region fails:
the cold-boot hart 0 ends in `sbi_hart_hang` at the check of sm.c:181, the
flag stays 0, hart 1 spins and has issued no permission call. -/
theorem sm_init_registration_failure_witness :
    ((run cfg0 env_nvm_fails (boot cfg0 (fun _ => 0) 0)
        ([1, 1, 1] ++ List.replicate 9 0 ++ List.replicate 9 1)).harts 0).pc = PC.hang_nvm ∧
    (run cfg0 env_nvm_fails (boot cfg0 (fun _ => 0) 0)
        ([1, 1, 1] ++ List.replicate 9 0 ++ List.replicate 9 1)).sh.sm_init_done = 0 ∧
    ((run cfg0 env_nvm_fails (boot cfg0 (fun _ => 0) 0)
        ([1, 1, 1] ++ List.replicate 9 0 ++ List.replicate 9 1)).harts 1).pc.in_wait = true ∧
    ((run cfg0 env_nvm_fails (boot cfg0 (fun _ => 0) 0)
        ([1, 1, 1] ++ List.replicate 9 0 ++ List.replicate 9 1)).harts 1).trace.filter
          Event.is_pmp = [] := by
  have h := (sm_init_registration_failure cfg0 env_nvm_fails (fun _ => 0) 0
    ([1, 1, 1] ++ List.replicate 9 0 ++ List.replicate 9 1)).1 (Or.inr (Or.inl (by decide)))
  exact ⟨(h.1 (by decide)).trans (by decide), h.2.2.2.2.1, h.2.2.2.2.2 1 (by decide),
    (h.2.2.2.1 1).2⟩

/-! ## Progress of any hart once the flag is set -/

/-- With the flag set, a statement of a hart that is in the spin-wait (and
was called with `cold_boot = false`) or behind the write of the flag takes it
one stage further, until it is behind the permission calls. -/
theorem sm_init_step_release (cfg : Config) (env : Env) (hartid : Nat) (sh : Shared) (c : Core)
    (hd : sh.sm_init_done = 1)
    (hpl : (c.pc.in_wait = true ∧ c.cold_boot = false) ∨ 12 ≤ c.pc.stage) :
    min (max c.pc.stage 12 + 1) 18 ≤ (sm_init_step cfg env hartid sh c).2.pc.stage := by
  obtain ⟨cb, pc, now, e, tr⟩ := c
  cases pc <;> simp only [sm_init_step] <;> (try split) <;>
    simp [PC.stage, PC.in_wait, hd] at hpl ⊢
  all_goals first | omega | simp_all

/-- A hart that is not the one stepping stays as it is. -/
theorem step_other_hart (cfg : Config) (env : Env) (s : Sys) {i j : Nat} (h : i ≠ j) :
    (Sys.step cfg env s j).harts i = s.harts i := by
  simp [Sys.step, Function.update_noteq h]

/-- Once the flag is set, `n` statements of its own take any hart `n` stages
further, until it is behind the permission calls. -/
theorem run_release (cfg : Config) (env : Env) (c0 i : Nat) (sched : List Nat) :
    ∀ s : Sys, Inv cfg env c0 s → s.sh.sm_init_done = 1 →
      min (max (s.harts i).pc.stage 12 + sched.count i) 18 ≤
        max ((run cfg env s sched).harts i).pc.stage 12 := by
  induction sched with
  | nil => intro s _ _; simp only [run, List.foldl_nil, List.count_nil]; omega
  | cons j rest ih =>
    intro s hI hd
    have hI1 := inv_step hI j
    have hd1 : (Sys.step cfg env s j).sh.sm_init_done = 1 :=
      sm_init_step_flag cfg env j s.sh (s.harts j) hd
    have hrun : run cfg env s (j :: rest) = run cfg env (Sys.step cfg env s j) rest := rfl
    rw [hrun]
    have h := ih _ hI1 hd1
    by_cases hj : j = i
    · subst hj
      have hpl : ((s.harts j).pc.in_wait = true ∧ (s.harts j).cold_boot = false) ∨
          12 ≤ (s.harts j).pc.stage := by
        by_cases hc : j = c0
        · subst hc
          exact Or.inr (hI.cold.published hd).1
        · have hH := hI.hart j
          rcases hH.place (by simp [hc]) with hw | hw
          · exact Or.inl ⟨hw, by rw [hH.arg]; simp [hc]⟩
          · right
            generalize (s.harts j).pc = pc at hw
            cases pc <;> first | (simp [PC.stage]; done) | simp [PC.past_wait] at hw
      have hp := sm_init_step_release cfg env j s.sh (s.harts j) hd hpl
      have hpc : ((Sys.step cfg env s j).harts j).pc =
          (sm_init_step cfg env j s.sh (s.harts j)).2.pc := by
        simp [Sys.step]
      rw [← hpc] at hp
      simp only [List.count_cons_self]
      omega
    · have hc : i ≠ j := fun h => hj h.symm
      rw [step_other_hart cfg env s hc] at h
      rw [List.count_cons_of_ne hc]
      exact h

theorem past_permissions_of_stage (pc : PC) (h : 18 ≤ pc.stage) :
    pc.past_permissions = true := by
  cases pc <;> first | rfl | simp [PC.stage] at h

/-- The permission calls a hart has issued, by where it stands. -/
theorem HartInv.pmp_calls {cfg : Config} {env : Env} {sh : Shared} {cold : Bool} {c : Core}
    (hH : HartInv cfg env sh cold c) :
    c.trace.filter Event.is_pmp = (permission_calls cfg env).take (c.pc.stage - 14) := by
  rw [hH.filter_events _ pmp_not_sync, List.filter_append, post_events_pmp]
  split <;> simp [cold_events_pmp]

/-- The cold-boot hart is behind stage `n` after `n` statements of its own
when the registrations and the one-time platform hook succeed. -/
theorem cold_boot_reaches (cfg : Config) (env : Env) (m0 : Mem) (c0 : Nat) (sched : List Nat)
    (n : Nat) (hn : n ≤ 18)
    (hplat : n ≤ 8 ∨ env.platform_init_global_once = cfg.SBI_ERR_SM_ENCLAVE_SUCCESS)
    (hsmm : 0 ≤ (smm_init cfg env).2) (hnvm : 0 ≤ (nvm_init cfg env).2)
    (hosm : 0 ≤ (osm_init cfg env).2) (hsteps : n ≤ sched.count c0) :
    n ≤ ((run cfg env (boot cfg m0 c0) sched).harts c0).pc.stage := by
  have hI := inv_reach cfg env m0 c0 sched
  have hP := run_progress cfg env c0 sched _ (inv_boot cfg env m0 c0)
  rw [boot_stage] at hP
  generalize run cfg env (boot cfg m0 c0) sched = s at hI hP ⊢
  rcases hP with h | h
  · have b1 := hI.cold.sm_bad
    have b2 := hI.cold.nvm_bad
    have b3 := hI.cold.os_bad
    have b4 := hI.cold.once_bad
    generalize (s.harts c0).pc = pc at h b1 b2 b3 b4
    cases pc <;> simp [PC.halted, PC.stage] at h b1 b2 b3 b4 ⊢ <;> omega
  · omega

/-- C4: in every state the machine reaches and for every hart `i`
(cold-boot or not): (1) the permission calls the hart has issued are an
initial part of `pmp_init`, `pmp_set_keystone(sm, PMP_NO_PERM)`,
`pmp_set_keystone(nvm, PMP_NO_PERM)`, `pmp_set_keystone(os, PMP_ALL_PERM)`
with `sm`, `nvm`, `os` the values `smm_init`, `nvm_init` and `osm_init`
returned on the cold-boot hart; (2) they are exactly these four once the hart
is behind sm.c:217; (3) a hart behind the spin-wait sees `sm_init_done = 1`;
(4) a statement that issues a permission call is executed with
`sm_init_done = 1`; (5) once `sm_init_done` is 1, however the machine goes
on, a hart that gets to execute 6 statements has issued exactly the four
calls; (6) `sm_init_done` is 1 once the cold-boot hart has executed 12
statements, when the registrations and the one-time platform hook
succeed. -/
theorem sm_init_permissions (cfg : Config) (env : Env) (m0 : Mem) (c0 : Nat)
    (sched : List Nat) (i : Nat) :
    (((run cfg env (boot cfg m0 c0) sched).harts i).trace.filter Event.is_pmp <+:
      [.pmp_init,
       .pmp_set_keystone (smm_init cfg env).2 .PMP_NO_PERM,
       .pmp_set_keystone (nvm_init cfg env).2 .PMP_NO_PERM,
       .pmp_set_keystone (osm_init cfg env).2 .PMP_ALL_PERM]) ∧
    (((run cfg env (boot cfg m0 c0) sched).harts i).pc.past_permissions = true →
      ((run cfg env (boot cfg m0 c0) sched).harts i).trace.filter Event.is_pmp =
        [.pmp_init,
         .pmp_set_keystone (smm_init cfg env).2 .PMP_NO_PERM,
         .pmp_set_keystone (nvm_init cfg env).2 .PMP_NO_PERM,
         .pmp_set_keystone (osm_init cfg env).2 .PMP_ALL_PERM]) ∧
    (((run cfg env (boot cfg m0 c0) sched).harts i).pc.past_wait = true →
      (run cfg env (boot cfg m0 c0) sched).sh.sm_init_done = 1) ∧
    (((Sys.step cfg env (run cfg env (boot cfg m0 c0) sched) i).harts i).trace.filter
        Event.is_pmp ≠
      ((run cfg env (boot cfg m0 c0) sched).harts i).trace.filter Event.is_pmp →
      (run cfg env (boot cfg m0 c0) sched).sh.sm_init_done = 1) ∧
    ((run cfg env (boot cfg m0 c0) sched).sh.sm_init_done = 1 →
      ∀ sched2 : List Nat, 6 ≤ sched2.count i →
        ((run cfg env (boot cfg m0 c0) (sched ++ sched2)).harts i).trace.filter Event.is_pmp =
          [.pmp_init,
           .pmp_set_keystone (smm_init cfg env).2 .PMP_NO_PERM,
           .pmp_set_keystone (nvm_init cfg env).2 .PMP_NO_PERM,
           .pmp_set_keystone (osm_init cfg env).2 .PMP_ALL_PERM]) ∧
    (0 ≤ (smm_init cfg env).2 → 0 ≤ (nvm_init cfg env).2 → 0 ≤ (osm_init cfg env).2 →
      env.platform_init_global_once = cfg.SBI_ERR_SM_ENCLAVE_SUCCESS →
      12 ≤ sched.count c0 → (run cfg env (boot cfg m0 c0) sched).sh.sm_init_done = 1) := by
  have hfull : ∀ (sh : Shared) (cold : Bool) (c : Core), HartInv cfg env sh cold c →
      c.pc.past_permissions = true →
      c.trace.filter Event.is_pmp = permission_calls cfg env := by
    intro sh cold c hH hp
    rw [hH.pmp_calls]
    have : 4 ≤ c.pc.stage - 14 := by
      generalize c.pc = pc at hp
      cases pc <;> first | (simp [PC.stage]; done) | simp [PC.past_permissions] at hp
    exact List.take_of_length_le (by simpa [permission_calls] using this)
  have hreach := cold_boot_reaches cfg env m0 c0 sched 12 (by decide)
  have hI := inv_reach cfg env m0 c0 sched
  have hrel := fun sched2 => run_release cfg env c0 i sched2 _ hI
  have hI2 := fun sched2 => inv_reach cfg env m0 c0 (sched ++ sched2)
  have happ : ∀ sched2, run cfg env (boot cfg m0 c0) (sched ++ sched2) =
      run cfg env (run cfg env (boot cfg m0 c0) sched) sched2 := by
    intro sched2
    simp [run, List.foldl_append]
  simp only [happ] at hI2 ⊢
  generalize run cfg env (boot cfg m0 c0) sched = s at hI hrel hI2 hreach ⊢
  have hH := hI.hart i
  refine ⟨?_, hfull _ _ _ hH, hH.flag, fun hne => ?_, fun hd sched2 h6 => ?_,
    fun h1 h2 h3 h4 h12 => ?_⟩
  · rw [hH.pmp_calls]
    exact List.take_prefix _ _
  · apply hH.flag
    apply sm_init_step_pmp cfg env i s.sh (s.harts i)
    simpa [Sys.step] using hne
  · have hst := hrel sched2 hd
    exact hfull _ _ _ ((hI2 sched2).hart i) (past_permissions_of_stage _ (by omega))
  · have hs := hreach (Or.inr h4) h1 h2 h3 h12
    rw [hI.cold.done, if_pos hs]

/-- C4 on the reference machine: hart 1 spins while the cold-boot hart 0
executes its 12 statements up to the write of the flag; after 6 more
statements each, hart 0 and hart 1 have both issued the four calls with the
handles 0, 1 and 2 that hart 0 was given. -/
theorem sm_init_permissions_witness :
    ((run cfg0 env_ok (boot cfg0 (fun _ => 0) 0)
        (([1, 1, 1] ++ List.replicate 12 0) ++ [1, 0, 1, 0, 1, 0, 1, 0, 1, 0, 1, 0])).harts
          0).trace.filter Event.is_pmp =
      [.pmp_init, .pmp_set_keystone 0 .PMP_NO_PERM, .pmp_set_keystone 1 .PMP_NO_PERM,
       .pmp_set_keystone 2 .PMP_ALL_PERM] ∧
    ((run cfg0 env_ok (boot cfg0 (fun _ => 0) 0)
        (([1, 1, 1] ++ List.replicate 12 0) ++ [1, 0, 1, 0, 1, 0, 1, 0, 1, 0, 1, 0])).harts
          1).trace.filter Event.is_pmp =
      [.pmp_init, .pmp_set_keystone 0 .PMP_NO_PERM, .pmp_set_keystone 1 .PMP_NO_PERM,
       .pmp_set_keystone 2 .PMP_ALL_PERM] :=
  ⟨(sm_init_permissions cfg0 env_ok (fun _ => 0) 0 ([1, 1, 1] ++ List.replicate 12 0) 0).2.2.2.2.1
      ((sm_init_permissions cfg0 env_ok (fun _ => 0) 0 ([1, 1, 1] ++ List.replicate 12 0)
        0).2.2.2.2.2 (by decide) (by decide) (by decide) (by decide) (by decide))
      [1, 0, 1, 0, 1, 0, 1, 0, 1, 0, 1, 0] (by decide),
    (sm_init_permissions cfg0 env_ok (fun _ => 0) 0 ([1, 1, 1] ++ List.replicate 12 0) 1).2.2.2.2.1
      ((sm_init_permissions cfg0 env_ok (fun _ => 0) 0 ([1, 1, 1] ++ List.replicate 12 0)
        1).2.2.2.2.2 (by decide) (by decide) (by decide) (by decide) (by decide))
      [1, 0, 1, 0, 1, 0, 1, 0, 1, 0, 1, 0] (by decide)⟩

/-- C5, as the code has it, on two harts: the cold-boot hart 0 writes
`sm_init_done` and only then executes its first barrier; hart 1 reads
`sm_init_done` for the first time with no barrier before the read. -/
theorem sm_init_barrier_placement :
    ((run cfg0 env_ok (boot cfg0 (fun _ => 0) 0) (List.replicate 14 0)).harts 0).trace =
      [.sbi_ecall_register_extension,
       .pmp_region_init_atomic 0x7fe00000 0x200000 .PMP_PRI_TOP 0,
       .pmp_region_init_atomic 0x80000000 0x4000 .PMP_PRI_NEXT 0,
       .pmp_region_init_atomic 0 0xffffffffffffffff .PMP_PRI_BOTTOM 1,
       .platform_init_global_once, .sm_copy_key, .enclave_init_metadata,
       .store_sm_init_done 1, .mb, .load_sm_init_done 1] ∧
    ((run cfg0 env_ok (boot cfg0 (fun _ => 0) 0) [1, 1, 1, 1]).harts 1).trace =
      [.load_sm_init_done 0, .mb, .load_sm_init_done 0] := by
  decide

/-- C7, as the code has it: hart 0 (cold boot) and then hart 1 run `sm_init`
to its return, one after the other. The descriptor then counts 8 blocks
while 4 blocks are linked from `head`, and `tail` is reached after 4
steps. -/
theorem sm_init_two_harts_count :
    (two_harts_booted.harts 0).pc = PC.returned ∧
    (two_harts_booted.harts 1).pc = PC.returned ∧
    two_harts_booted.sh.free_list_nvm = ⟨0x80000000, 0x80003000, 8⟩ ∧
    walk cfg0 two_harts_booted.sh.mem 9 two_harts_booted.sh.free_list_nvm.head =
      some [0x80000000, 0x80001000, 0x80002000, 0x80003000] := by
  decide

/-- C8 as stated fails: on a cold boot in which every step succeeds the
one-time platform hook comes before the key copy, not after it. -/
theorem sm_init_cold_boot_order_counterexample :
    ((run cfg0 env_ok (boot cfg0 (fun _ => 0) 0) (List.replicate 12 0)).harts 0).trace.filter
        Event.is_one_time =
      [.pmp_region_init_atomic 0x7fe00000 0x200000 .PMP_PRI_TOP 0,
       .pmp_region_init_atomic 0x80000000 0x4000 .PMP_PRI_NEXT 0,
       .pmp_region_init_atomic 0 0xffffffffffffffff .PMP_PRI_BOTTOM 1,
       .platform_init_global_once, .sm_copy_key, .store_sm_init_done 1] ∧
    ((run cfg0 env_ok (boot cfg0 (fun _ => 0) 0) (List.replicate 12 0)).harts 0).trace.filter
        Event.is_one_time ≠
      [.pmp_region_init_atomic 0x7fe00000 0x200000 .PMP_PRI_TOP 0,
       .pmp_region_init_atomic 0x80000000 0x4000 .PMP_PRI_NEXT 0,
       .pmp_region_init_atomic 0 0xffffffffffffffff .PMP_PRI_BOTTOM 1,
       .sm_copy_key, .platform_init_global_once, .store_sm_init_done 1] := by
  decide

/-- C8, amended: on the cold-boot hart, when the three registrations and the
one-time platform hook succeed, `sm_init(true)` has after 12 statements
performed the one-time steps in this order: the three registrations, the
one-time platform hook (`platform_init_global_once`), the copy of the
root-of-trust key material (`sm_copy_key`), the write of `sm_init_done`; and
it performs no further one-time step later. -/
theorem sm_init_cold_boot_order (cfg : Config) (env : Env) (m0 : Mem) (c0 : Nat)
    (sched : List Nat)
    (hsmm : 0 ≤ (smm_init cfg env).2) (hnvm : 0 ≤ (nvm_init cfg env).2)
    (hosm : 0 ≤ (osm_init cfg env).2)
    (hplat : env.platform_init_global_once = cfg.SBI_ERR_SM_ENCLAVE_SUCCESS)
    (hsteps : 12 ≤ sched.count c0) :
    ((run cfg env (boot cfg m0 c0) sched).harts c0).trace.filter Event.is_one_time =
      [.pmp_region_init_atomic cfg.SMM_BASE cfg.SMM_SIZE .PMP_PRI_TOP 0,
       .pmp_region_init_atomic cfg.NVM_BASE cfg.NVM_SIZE .PMP_PRI_NEXT 0,
       .pmp_region_init_atomic 0 (word_mod cfg - 1) .PMP_PRI_BOTTOM 1,
       .platform_init_global_once, .sm_copy_key, .store_sm_init_done 1] := by
  have hs := cold_boot_reaches cfg env m0 c0 sched 12 (by decide) (Or.inr hplat) hsmm hnvm hosm
    hsteps
  have hH := (inv_reach cfg env m0 c0 sched).hart c0
  simp only [decide_True] at hH
  rw [hH.filter_events _ one_time_not_sync, if_pos rfl, List.filter_append,
    cold_events_one_time cfg env _ hs, post_events_one_time]
  rfl

/-- C8, amended, on the reference machine, with another hart spinning in
between. -/
theorem sm_init_cold_boot_order_witness :
    ((run cfg0 env_ok (boot cfg0 (fun _ => 0) 0)
        ([1, 1] ++ List.replicate 12 0 ++ [1, 0, 0])).harts 0).trace.filter Event.is_one_time =
      [.pmp_region_init_atomic 0x7fe00000 0x200000 .PMP_PRI_TOP 0,
       .pmp_region_init_atomic 0x80000000 0x4000 .PMP_PRI_NEXT 0,
       .pmp_region_init_atomic 0 0xffffffffffffffff .PMP_PRI_BOTTOM 1,
       .platform_init_global_once, .sm_copy_key, .store_sm_init_done 1] :=
  sm_init_cold_boot_order cfg0 env_ok (fun _ => 0) 0 ([1, 1] ++ List.replicate 12 0 ++ [1, 0, 0])
    (by decide) (by decide) (by decide) (by decide) (by decide)

/-- C9: when the three registrations succeed on the cold-boot hart `c0`, then
once it has executed 8 statements (and at any time after) it has called
`pmp_region_init_atomic` exactly three times, in this order: for the Monitor
region (`SMM_BASE`, `SMM_SIZE`, `PMP_PRI_TOP`, not default: last argument
0), for the SecureStorage region (`NVM_BASE`, `NVM_SIZE`, `PMP_PRI_NEXT`,
not default), and last for the Default region (base 0, size the all-ones
word `-1UL`, `PMP_PRI_BOTTOM`, default: last argument 1); no other hart
calls it; and `sm_region_id`, `nvm_region_id`, `os_region_id` hold the
handle the respective call left in `region`. -/
theorem sm_init_registrations (cfg : Config) (env : Env) (m0 : Mem) (c0 : Nat)
    (sched : List Nat)
    (hsmm : 0 ≤ (smm_init cfg env).2) (hnvm : 0 ≤ (nvm_init cfg env).2)
    (hosm : 0 ≤ (osm_init cfg env).2) (hsteps : 8 ≤ sched.count c0) :
    ((run cfg env (boot cfg m0 c0) sched).harts c0).trace.filter Event.is_registration =
      [.pmp_region_init_atomic cfg.SMM_BASE cfg.SMM_SIZE .PMP_PRI_TOP 0,
       .pmp_region_init_atomic cfg.NVM_BASE cfg.NVM_SIZE .PMP_PRI_NEXT 0,
       .pmp_region_init_atomic 0 (word_mod cfg - 1) .PMP_PRI_BOTTOM 1] ∧
    (∀ i, i ≠ c0 →
      ((run cfg env (boot cfg m0 c0) sched).harts i).trace.filter Event.is_registration = []) ∧
    (run cfg env (boot cfg m0 c0) sched).sh.sm_region_id =
      (env.pmp_region_init_atomic cfg.SMM_BASE cfg.SMM_SIZE .PMP_PRI_TOP (-1) 0).2 ∧
    (run cfg env (boot cfg m0 c0) sched).sh.nvm_region_id =
      (env.pmp_region_init_atomic cfg.NVM_BASE cfg.NVM_SIZE .PMP_PRI_NEXT (-1) 0).2 ∧
    (run cfg env (boot cfg m0 c0) sched).sh.os_region_id =
      (env.pmp_region_init_atomic 0 (word_mod cfg - 1) .PMP_PRI_BOTTOM (-1) 1).2 := by
  have hs := cold_boot_reaches cfg env m0 c0 sched 8 (by decide) (Or.inl (le_refl _)) hsmm hnvm
    hosm hsteps
  have hI := inv_reach cfg env m0 c0 sched
  generalize run cfg env (boot cfg m0 c0) sched = s at hI hs ⊢
  have hH := hI.hart c0
  simp only [decide_True] at hH
  have e3 : 3 ≤ (s.harts c0).pc.stage := by omega
  have e5 : 5 ≤ (s.harts c0).pc.stage := by omega
  have e7 : 7 ≤ (s.harts c0).pc.stage := by omega
  refine ⟨?_, fun i hi => ?_, ?_, ?_, ?_⟩
  · rw [hH.filter_events _ registration_not_sync, if_pos rfl, List.filter_append,
      cold_events_registration, post_events_registration, if_pos e3, if_pos e5, if_pos e7]
    rfl
  · have hHi := hI.hart i
    rw [hHi.filter_events _ registration_not_sync, List.filter_append,
      post_events_registration]
    simp [hi]
  · rw [hI.cold.sm_id e3]
    unfold smm_init at hsmm ⊢
    simp only at hsmm ⊢
    split
    · next h => rw [if_pos h] at hsmm; omega
    · rfl
  · rw [hI.cold.nvm_id e5]
    unfold nvm_init at hnvm ⊢
    simp only at hnvm ⊢
    split
    · next h => rw [if_pos h] at hnvm; omega
    · rfl
  · rw [hI.cold.os_id e7]
    unfold osm_init at hosm ⊢
    simp only at hosm ⊢
    split
    · next h => rw [if_pos h] at hosm; omega
    · rfl

/-- C9 on the reference machine: three calls in the order Monitor,
SecureStorage, Default, and the handles 0, 1, 2 in the three globals. -/
theorem sm_init_registrations_witness :
    ((run cfg0 env_ok (boot cfg0 (fun _ => 0) 0)
        ([1, 1] ++ List.replicate 30 0)).harts 0).trace.filter Event.is_registration =
      [.pmp_region_init_atomic 0x7fe00000 0x200000 .PMP_PRI_TOP 0,
       .pmp_region_init_atomic 0x80000000 0x4000 .PMP_PRI_NEXT 0,
       .pmp_region_init_atomic 0 0xffffffffffffffff .PMP_PRI_BOTTOM 1] ∧
    (run cfg0 env_ok (boot cfg0 (fun _ => 0) 0) ([1, 1] ++ List.replicate 30 0)).sh.sm_region_id
      = 0 ∧
    (run cfg0 env_ok (boot cfg0 (fun _ => 0) 0) ([1, 1] ++ List.replicate 30 0)).sh.nvm_region_id
      = 1 ∧
    (run cfg0 env_ok (boot cfg0 (fun _ => 0) 0) ([1, 1] ++ List.replicate 30 0)).sh.os_region_id
      = 2 := by
  have h := sm_init_registrations cfg0 env_ok (fun _ => 0) 0 ([1, 1] ++ List.replicate 30 0)
    (by decide) (by decide) (by decide) (by decide)
  exact ⟨h.1, h.2.2.1, h.2.2.2.1, h.2.2.2.2⟩


/-! ## The sealing key -/

/-- Copying `n` bytes that both arrays have. -/
theorem sbi_memcpy_eq (src : List Nat) :
    ∀ (dest : List Nat) (n : Nat), n ≤ dest.length → n ≤ src.length →
      sbi_memcpy dest src n = src.take n ++ dest.drop n := by
  induction src with
  | nil =>
    intro dest n _ hs
    have : n = 0 := by simpa using hs
    subst this
    cases dest <;> simp [sbi_memcpy]
  | cons b bs ih =>
    intro dest n hd hs
    cases n with
    | zero => cases dest <;> simp [sbi_memcpy]
    | succ n =>
      cases dest with
      | nil => simp at hd
      | cons d ds =>
        simp only [List.length_cons, Nat.add_le_add_iff_right] at hd hs
        simp [sbi_memcpy, ih ds n hd hs]

/-- C6: for every key identifier, of any length that leaves
`MDSIZE + key_ident_size` representable in `size_t`, and every `MDSIZE`-byte
measurement, `sm_derive_sealing_key` returns exactly what the external `kdf`
returns for salt `NULL` of length 0, the monitor private key with length
`PRIVATE_KEY_SIZE`, info the measurement followed by the identifier bytes
with length `MDSIZE + key_ident_size`, and output length `SEALING_KEY_SIZE`.
The result does not depend on what the array `info` held before, so two
calls with the same identifier and measurement return the same key. -/
theorem sm_derive_sealing_key_kdf (cfg : Config) (kdf : Kdf) (sm_private_key : List Nat)
    (key_ident enclave_hash : List Nat) (stack : Nat → Nat)
    (hhash : enclave_hash.length = cfg.MDSIZE)
    (hfit : cfg.MDSIZE + key_ident.length < word_mod cfg) :
    sm_derive_sealing_key cfg kdf sm_private_key stack key_ident key_ident.length enclave_hash =
      kdf none 0 sm_private_key cfg.PRIVATE_KEY_SIZE (enclave_hash ++ key_ident)
        (cfg.MDSIZE + key_ident.length) cfg.SEALING_KEY_SIZE ∧
    ∀ stack2 : Nat → Nat,
      sm_derive_sealing_key cfg kdf sm_private_key stack2 key_ident key_ident.length
          enclave_hash =
        sm_derive_sealing_key cfg kdf sm_private_key stack key_ident key_ident.length
          enclave_hash := by
  have key : ∀ st : Nat → Nat,
      sm_derive_sealing_key cfg kdf sm_private_key st key_ident key_ident.length enclave_hash =
        kdf none 0 sm_private_key cfg.PRIVATE_KEY_SIZE (enclave_hash ++ key_ident)
          (cfg.MDSIZE + key_ident.length) cfg.SEALING_KEY_SIZE := by
    intro st
    unfold sm_derive_sealing_key
    simp only [Nat.mod_eq_of_lt hfit]
    have hlen : ((List.range (cfg.MDSIZE + key_ident.length)).map st).length =
        cfg.MDSIZE + key_ident.length := by simp
    rw [sbi_memcpy_eq enclave_hash _ cfg.MDSIZE (by omega) (by omega)]
    have h1 : List.take cfg.MDSIZE enclave_hash = enclave_hash := by
      rw [← hhash]; exact List.take_length _
    rw [h1, List.take_left' hhash, List.drop_left' hhash,
      sbi_memcpy_eq key_ident _ key_ident.length (by simp) (le_refl _)]
    have hd : List.drop (cfg.MDSIZE + key_ident.length)
        ((List.range (cfg.MDSIZE + key_ident.length)).map st) = [] :=
      List.drop_eq_nil_of_le (by rw [hlen])
    simp [hd]
  exact ⟨key stack, fun stack2 => (key stack2).trans (key stack).symm⟩

/-- C6 on the reference configuration: a three-byte identifier and a 64-byte
measurement. -/
theorem sm_derive_sealing_key_kdf_witness :
    sm_derive_sealing_key cfg0 kdf0 (List.replicate 64 3) (fun _ => 0xAA) [1, 2, 3] 3
        (List.replicate 64 7) =
      kdf0 none 0 (List.replicate 64 3) 64 (List.replicate 64 7 ++ [1, 2, 3]) 67 128 :=
  (sm_derive_sealing_key_kdf cfg0 kdf0 (List.replicate 64 3) [1, 2, 3] (List.replicate 64 7)
    (fun _ => 0xAA) (by decide) (by decide)).1

end SM
